import Mathlib

set_option autoImplicit false

/-!
Verification development for the p4c IR traversal engine (src/ir/visitor.cpp)
and the reference-resolution pass
(src/frontends/common/resolveReferences/resolveReferences.cpp).

The C++ code is shallowly embedded: IR nodes become a Lean tree value
carrying an allocation identity (the pointer) and a structural label;
the abseil hash maps of the trackers become association lists keyed by
the node identity; aborting assertions (BUG, BUG_CHECK, assert) become
an Option-valued result where none models the abort.
-/

/-- An IR node. The field id models the C++ pointer identity of the node
(two distinct allocations never share an id); label models all
variant-specific non-child data; children models the declared-order child
list. Pointer equality of the C++ code is equality of id; the deep
structural operator== of the IR (which ignores identity) is structEq
below. -/
inductive IRTree where
  | node (id : Nat) (label : Nat) (children : List IRTree)
deriving Repr

def IRTree.nid : IRTree → Nat
  | .node i _ _ => i

def IRTree.label : IRTree → Nat
  | .node _ l _ => l

def IRTree.children : IRTree → List IRTree
  | .node _ _ cs => cs

mutual

/-- Deep structural equality of IR nodes: ignores identity (id), compares
the variant data and the children in order, as required of operator== by
the design. -/
def structEq : IRTree → IRTree → Bool
  | .node _ l cs, .node _ l' cs' => l == l' && structEqList cs cs'

/-- Pointwise structural equality of child lists. -/
def structEqList : List IRTree → List IRTree → Bool
  | [], [] => true
  | c :: cs, c' :: cs' => structEq c c' && structEqList cs cs'
  | _, _ => false

end

/-- Pointer equality of two nodes (same C++ address). -/
def irPtrEq (a b : IRTree) : Bool := a.nid == b.nid

/-! ### Association-list maps keyed by node address

The trackers use absl::flat_hash_map keyed by const IR::Node*. We model
the map as an association list keyed by the id (address) of the node.
emplace inserts only when the key is absent, as in C++. -/

def alFind {α : Type} : List (Nat × α) → Nat → Option α
  | [], _ => none
  | (k, v) :: rest, k' => if k = k' then some v else alFind rest k'

def alInsert {α : Type} (m : List (Nat × α)) (k : Nat) (v : α) : List (Nat × α) :=
  (k, v) :: m

/-- emplace: insert only if the key is absent (C++ map::emplace). -/
def alEmplace {α : Type} (m : List (Nat × α)) (k : Nat) (v : α) : List (Nat × α) :=
  match alFind m k with
  | some _ => m
  | none => alInsert m k v

/-- Update the value stored at key k (no effect when absent). -/
def alUpdate {α : Type} : List (Nat × α) → Nat → α → List (Nat × α)
  | [], _, _ => []
  | (k, v) :: rest, k', v' =>
      if k = k' then (k, v') :: rest else (k, v) :: alUpdate rest k' v'

/-! ### VisitStatus (src/ir/visitor.cpp line 49) -/

inductive VisitStatus where
  | New | Revisit | Busy | Done
deriving DecidableEq, Repr

/-! ### Visitor::ChangeTracker (src/ir/visitor.cpp lines 59 to 214)

The rewriting tracker used by Modifier and Transform. visit_info_t
carries visit_in_progress, visitOnce and the result pointer; the result
may become nullptr when the node is removed, hence Option IRTree. -/

structure CTInfo where
  visit_in_progress : Bool
  visitOnce : Bool
  result : Option IRTree
deriving Repr

structure ChangeTracker where
  forceClone : Bool
  visited : List (Nat × CTInfo)
deriving Repr

/-- ChangeTracker::try_start (lines 85 to 97): emplace an in-progress
entry with the default visitOnce flag and result = the node itself; when
the node was already seen, report Busy when in progress, Done when
finished with visitOnce set, otherwise reopen the entry and report
Revisit. Returns the status together with the updated tracker. -/
def ctTryStart (ct : ChangeTracker) (n : IRTree) (defaultVisitOnce : Bool) :
    VisitStatus × ChangeTracker :=
  match alFind ct.visited n.nid with
  | none =>
      (VisitStatus.New,
       { ct with visited := alInsert ct.visited n.nid ⟨true, defaultVisitOnce, some n⟩ })
  | some info =>
      if info.visit_in_progress then (VisitStatus.Busy, ct)
      else if info.visitOnce then (VisitStatus.Done, ct)
      else (VisitStatus.Revisit,
            { ct with visited := alUpdate ct.visited n.nid { info with visit_in_progress := true } })

/-- ChangeTracker::finish (lines 112 to 136). fin = none models a
nullptr final (node removed). The result none models the BUG abort
(visitor state tracker corrupted) raised when orig was never started.
The Bool reports whether the tree changed under this node. -/
def ctFinish (ct : ChangeTracker) (orig : IRTree) (fin : Option IRTree) :
    Option (ChangeTracker × Bool) :=
  match alFind ct.visited orig.nid with
  | none => none
  | some info =>
      let info1 : CTInfo := { info with visit_in_progress := false }
      let m1 := alUpdate ct.visited orig.nid info1
      match fin with
      | none =>
          some ({ ct with visited := alUpdate m1 orig.nid { info1 with result := none } }, true)
      | some f =>
          if ct.forceClone || (f.nid != orig.nid && !structEq f orig) then
            let m2 := alUpdate m1 orig.nid { info1 with result := some f }
            let m3 := alEmplace m2 f.nid ⟨false, info1.visitOnce, some f⟩
            some ({ ct with visited := m3 }, true)
          else if (alFind m1 f.nid).isSome then
            -- coalescing with some previously visited node
            some ({ ct with visited := alUpdate m1 orig.nid { info1 with result := some f } }, true)
          else
            some ({ ct with visited := m1 }, false)

/-- ChangeTracker::shouldVisitOnce (lines 139 to 143); none models the
BUG abort on a missing entry. -/
def ctShouldVisitOnce (ct : ChangeTracker) (n : IRTree) : Option Bool :=
  (alFind ct.visited n.nid).map (·.visitOnce)

/-- ChangeTracker::busy (lines 163 to 166). -/
def ctBusy (ct : ChangeTracker) (n : IRTree) : Bool :=
  match alFind ct.visited n.nid with
  | some info => info.visit_in_progress
  | none => false

/-- ChangeTracker::done (lines 175 to 178): finished and visitOnce. -/
def ctDone (ct : ChangeTracker) (n : IRTree) : Bool :=
  match alFind ct.visited n.nid with
  | some info => !info.visit_in_progress && info.visitOnce
  | none => false

/-- ChangeTracker::result (lines 186 to 190): the stored result, or the
node itself when it was never started. -/
def ctResult (ct : ChangeTracker) (n : IRTree) : Option IRTree :=
  match alFind ct.visited n.nid with
  | none => some n
  | some info => info.result

/-- ChangeTracker::finalResult (lines 197 to 201): the stored result only
when the visit finished with visitOnce set, else nullptr. -/
def ctFinalResult (ct : ChangeTracker) (n : IRTree) : Option IRTree :=
  match alFind ct.visited n.nid with
  | none => none
  | some info =>
      if !info.visit_in_progress && info.visitOnce then info.result else none

/-! ### Visitor::Tracker (src/ir/visitor.cpp lines 223 to 330)

The read-only tracker used by Inspector: only done and visitOnce. -/

structure TrInfo where
  done : Bool
  visitOnce : Bool
deriving DecidableEq, Repr

abbrev Tracker := List (Nat × TrInfo)

/-- Tracker::try_start (lines 258 to 270): emplace {done = false,
defaultVisitOnce}; on a hit, Busy when not done, Done when done with
visitOnce, otherwise clear done and report Revisit. -/
def trTryStart (m : Tracker) (n : IRTree) (defaultVisitOnce : Bool) :
    VisitStatus × Tracker :=
  match alFind m n.nid with
  | none => (VisitStatus.New, alInsert m n.nid ⟨false, defaultVisitOnce⟩)
  | some info =>
      if !info.done then (VisitStatus.Busy, m)
      else if info.visitOnce then (VisitStatus.Done, m)
      else (VisitStatus.Revisit, alUpdate m n.nid { info with done := false })

/-- Tracker::finish (lines 283 to 288); none models the BUG abort. -/
def trFinish (m : Tracker) (n : IRTree) : Option Tracker :=
  match alFind m n.nid with
  | none => none
  | some info => some (alUpdate m n.nid { info with done := true })

/-! ### The Context stack (PushContext, src/ir/visitor.cpp lines 436 to 458)

A context frame records the node and its parent frame; depth is the
parent depth plus one (1 for the outermost frame). The constructor
asserts current.depth < 10000 (stack overflow check). We model the
context as the list of ancestor nodes, innermost first; the depth of a
frame pushed on top of ctx is therefore ctx.length + 1. -/

def pushDepth (ctx : List IRTree) : Nat := ctx.length + 1

/-! ### Inspector::apply_visitor (src/ir/visitor.cpp lines 510 to 536)

The user-supplied part of an Inspector is its preorder / postorder /
revisit / loop_revisit callbacks over an abstract visitor state σ, plus
the visitDagOnce flag. A plain Inspector is not a ControlFlowVisitor,
so the base-class join_flows hook (declared in visitor.h, outside src/)
always reports that the node is not a join point; the flow-join variant
is modelled separately below. The traversal can only thread σ and the
read-only Tracker: the tree is never rewritten. The result none models
the abort of the stack-overflow assert in PushContext or of a tracker
BUG; otherwise the returned node is whatever the C++ function returns. -/

structure InspVisitor (σ : Type) where
  visitDagOnce : Bool
  preorder : σ → IRTree → σ × Bool
  postorder : σ → IRTree → σ
  revisit : σ → IRTree → σ
  loopRevisit : σ → IRTree → σ

structure InspState (σ : Type) where
  tracker : Tracker
  user : σ

mutual

/-- Inspector::apply_visitor on node t under context ctx: push a frame
(assert depth below 10000), consult the tracker, dispatch Busy to
loop_revisit, Done to revisit, New and Revisit to preorder, the children
in declared order, postorder, then finish. The function returns the very
node it was given in every non-aborting branch, as the C++ code never
reassigns n. -/
def inspApply {σ : Type} (V : InspVisitor σ) (st : InspState σ) (ctx : List IRTree) :
    IRTree → Option (InspState σ × IRTree)
  | t@(.node _ _ cs) =>
    if pushDepth ctx < 10000 then
      match trTryStart st.tracker t V.visitDagOnce with
      | (VisitStatus.Busy, m) => some (⟨m, V.loopRevisit st.user t⟩, t)
      | (VisitStatus.Done, m) => some (⟨m, V.revisit st.user t⟩, t)
      | (_, m) =>
        let pre := V.preorder st.user t
        let st2? : Option (InspState σ) :=
          if pre.2 then
            match inspChildren V ⟨m, pre.1⟩ (t :: ctx) cs with
            | none => none
            | some st' => some ⟨st'.tracker, V.postorder st'.user t⟩
          else some ⟨m, pre.1⟩
        match st2? with
        | none => none
        | some st2 =>
          match trFinish st2.tracker t with
          | none => none
          | some m' => some (⟨m', st2.user⟩, t)
    else none

/-- visit_children for an Inspector: visit each child in declared order,
threading the visitor state; the returned child pointers are discarded
(children of a const node are not replaced). -/
def inspChildren {σ : Type} (V : InspVisitor σ) (st : InspState σ) (ctx : List IRTree) :
    List IRTree → Option (InspState σ)
  | [] => some st
  | c :: rest =>
    match inspApply V st ctx c with
    | none => none
    | some (st', _) => inspChildren V st' ctx rest

end

/-! ### Transform::apply_visitor (src/ir/visitor.cpp lines 538 to 603)

The user part of a Transform: preorder receives the working clone and
returns a node that may be the clone itself (possibly mutated in place:
same address), a different node, or null; it may also call prune().
postorder likewise returns a node. Clones receive fresh addresses from
an allocation counter threaded through the state (concrete runs start
the counter above every existing id, as a fresh heap allocation never
reuses a live address). none as the overall result models an abort
(assert, BUG, or tracker corruption); the fuel argument bounds the
recursion depth of the model only, and a run that exhausts it is also
reported as none. -/

structure TPre (σ : Type) where
  user : σ
  result : Option IRTree
  pruneCalled : Bool

structure TransVisitor (σ : Type) where
  visitDagOnce : Bool
  dontForwardChildrenBeforePreorder : Bool
  preorder : σ → IRTree → TPre σ
  postorder : σ → IRTree → σ × Option IRTree
  revisit : σ → IRTree → Option IRTree → σ
  loopRevisit : σ → IRTree → σ

structure TransState (σ : Type) where
  ct : ChangeTracker
  fresh : Nat
  pruneFlag : Bool
  user : σ

/-- Shallow clone (IR::Node::clone): fresh address, same variant data,
same child pointers. -/
def cloneNode (t : IRTree) (fresh : Nat) : IRTree :=
  IRTree.node fresh t.label t.children

/-- ForwardChildren (src/ir/visitor.cpp lines 461 to 471): replace each
child by the tracker finalResult when one exists, else keep it. -/
def forwardChildren (ct : ChangeTracker) (cs : List IRTree) : List IRTree :=
  cs.map fun c => (ctFinalResult ct c).getD c

/-- The canonicalization step of Transform::apply_visitor (src/ir/visitor.cpp
lines 588 to 590):
if (final_result == copy and final_result != preorder_result and
*final_result == *preorder_result) final_result = preorder_result;
copyId is the address held by the local variable copy at this point.
The arm with a null preorder result and a non-null final at the copy
address is unreachable from apply_visitor (a null preorder result forces
prune_flag, so final_result is then null as well). -/
def transformCanonicalize (copyId : Nat) (preR finR : Option IRTree) : Option IRTree :=
  match finR with
  | none => finR
  | some f =>
    if f.nid ≠ copyId then finR
    else
      match preR with
      | none => finR
      | some p => if f.nid ≠ p.nid && structEq f p then some p else finR

/-- Transform::apply_visitor. Dispatch on the tracker status; in the New
or Revisit case clone the node, forward the children, run preorder and
handle a substituted result (null prunes; an already-Done node reuses
its stored result; otherwise a fresh visit over the substitute starts,
guarding against IR loops), then children and postorder unless pruned,
the canonicalization step, and the tracker finish calls. Children are
visited in declared order, each replaced by the returned node, a null
return removing the child (the behavior of Vector slots). -/
def tApply {σ : Type} (V : TransVisitor σ) :
    Nat → TransState σ → List IRTree → Option IRTree → Option (TransState σ × Option IRTree)
  | _, st, _, none => some (st, none)
  | 0, _, _, some _ => none
  | fuel + 1, st, ctx, some n =>
    if pushDepth ctx < 10000 then
      match ctTryStart st.ct n V.visitDagOnce with
      | (VisitStatus.Busy, ct1) =>
          some ({ st with ct := ct1, user := V.loopRevisit st.user n }, some n)
      | (VisitStatus.Done, ct1) =>
          let r := ctResult ct1 n
          some ({ st with ct := ct1, user := V.revisit st.user n r }, r)
      | (_, ct1) =>
        let copy0 := cloneNode n st.fresh
        let fresh1 := st.fresh + 1
        let copy1 :=
          if V.dontForwardChildrenBeforePreorder then copy0
          else IRTree.node copy0.nid copy0.label (forwardChildren ct1 copy0.children)
        let savePrune := st.pruneFlag
        let pre := V.preorder st.user copy1
        if (match pre.result with | some p => p.nid == n.nid | none => false) then
          none  -- assert(preorder_result != n)
        else
          -- preorder_result != copy: handle substitution
          let sub? : Option (ChangeTracker × Nat × IRTree × Option IRTree × Bool × Bool) :=
            match pre.result with
            | some p =>
              if p.nid == copy1.nid then
                -- no substitution; p is the (possibly mutated) copy
                some (ct1, fresh1, p, some p, pre.pruneCalled, false)
              else if ctDone ct1 p then
                some (ct1, fresh1, copy1, ctResult ct1 p, true, false)
              else
                match ctShouldVisitOnce ct1 n with
                | none => none  -- BUG: tracker corrupted
                | some vo =>
                  let s2 := ctTryStart ct1 p vo
                  if s2.1 = VisitStatus.Busy then none  -- BUG: IR loop detected
                  else some (s2.2, fresh1 + 1, cloneNode p fresh1, some p, pre.pruneCalled, true)
            | none => some (ct1, fresh1, copy1, none, true, false)
          match sub? with
          | none => none
          | some (ct2, fresh2, copy2, finalR0, prune, extraClone) =>
            let afterChildren? :
                Option (ChangeTracker × Nat × σ × Option IRTree) :=
              if prune then some (ct2, fresh2, pre.user, finalR0)
              else
                match copy2.children.foldl
                    (fun acc c =>
                      match acc with
                      | none => none
                      | some (stAcc, outs) =>
                        match tApply V fuel stAcc (n :: ctx) (some c) with
                        | none => none
                        | some (stAcc', c') =>
                          some (stAcc', outs ++ (match c' with
                            | some cNode => [cNode]
                            | none => [])))
                    (some ({ ct := ct2, fresh := fresh2, pruneFlag := false,
                             user := pre.user }, [])) with
                | none => none
                | some (st', cs') =>
                  let copy3 := IRTree.node copy2.nid copy2.label cs'
                  let post := V.postorder st'.user copy3
                  some (st'.ct, st'.fresh, post.1, post.2)
            match afterChildren? with
            | none => none
            | some (ct3, fresh3, u2, finalR1) =>
              let finalR2 := transformCanonicalize copy2.nid pre.result finalR1
              match ctFinish ct3 n finalR2 with
              | none => none
              | some (ct4, changed) =>
                let ret := if changed then finalR2 else some n
                if extraClone then
                  match pre.result with
                  | some p =>
                    match ctFinish ct4 p finalR2 with
                    | none => none
                    | some (ct5, _) =>
                        some ({ ct := ct5, fresh := fresh3, pruneFlag := savePrune,
                                user := u2 }, ret)
                  | none => none
                else
                  some ({ ct := ct4, fresh := fresh3, pruneFlag := savePrune, user := u2 }, ret)
    else none

/-! ### ControlFlowVisitor flow joins (src/ir/visitor.cpp lines 661 to 727)

A flow_join_info_t record per join point: the pending-arrival counter,
the done flag, and the accumulator clone of the visitor state. The
visitor state is an abstract σ; this.flow_merge(other) is merge this
other; clone and flow_copy duplicate the state, which in value
semantics is the state itself. -/

structure FlowJoinInfo (σ : Type) where
  count : Int
  done : Bool
  vclone : Option σ
deriving Repr

/-- The arrival step of ControlFlowVisitor::join_flows (lines 679 to
698): decrement the count of upstream edges yet to be traversed; when it
goes negative, merge the accumulator into the current visitor and
proceed to visit the node (Bool true); otherwise fold the current state
into the accumulator (or install it as the initial accumulator) and do
not proceed yet. none models the crash of flow_merge on a null
accumulator. -/
def joinArrival {σ : Type} (merge : σ → σ → σ) (info : FlowJoinInfo σ) (cur : σ) :
    Option (FlowJoinInfo σ × σ × Bool) :=
  let info1 : FlowJoinInfo σ := { info with count := info.count - 1 }
  if info1.count < 0 then
    match info1.vclone with
    | none => none
    | some acc => some (info1, merge cur acc, true)
  else
    match info1.vclone with
    | some acc => some ({ info1 with vclone := some (merge acc cur) }, cur, false)
    | none => some ({ info1 with vclone := some cur }, cur, false)

/-- ControlFlowVisitor::join_flows (lines 661 to 719) for a join point,
for a visitor whose split_link queue is empty (no pending parallel
branches). The returned Bool is the C++ return value: true means the
caller skips visiting the node. After an arrival that does not complete
the join, the while loop can make no progress with an empty queue and
the BUG_CHECK(count < 0 and done) aborts, modelled as none; the
BackwardsCompatibleBroken flag instead skips the node immediately. -/
def joinFlowsNoSplit {σ : Type} (merge : σ → σ → σ) (backCompat : Bool)
    (info : FlowJoinInfo σ) (cur : σ) : Option (FlowJoinInfo σ × σ × Bool) :=
  match joinArrival merge info cur with
  | none => none
  | some (i1, cur1, proceed) =>
    if proceed then some (i1, cur1, false)
    else if backCompat then some (i1, cur1, true)
    else if i1.count < 0 && i1.done then
      match i1.vclone with
      | none => none
      | some acc => some (i1, acc, true)
    else none

/-- ControlFlowVisitor::post_join_flows (lines 721 to 727) at a join
point: BUG_CHECK(!status.done || status.count < -1,
"flow join point visited more than once!") — modelled as none when it
fails — then mark done and copy the current state into the accumulator
(status.vclone->flow_copy(*this)); none also models the null-accumulator
crash of that call. -/
def postJoinFlows {σ : Type} (info : FlowJoinInfo σ) (cur : σ) : Option (FlowJoinInfo σ) :=
  if info.done && !(info.count < -1) then none
  else
    match info.vclone with
    | none => none
    | some _ => some { info with done := true, vclone := some cur }

/-- One visit of a node: record it in the visit log and run the user
preorder on the current visitor state. -/
def visitStep {σ : Type} (pre : σ → Nat → σ) (log : List Nat) (s : σ) (n : Nat) :
    List Nat × σ :=
  (log ++ [n], pre s n)

/-- Modelled from the spec: the diamond scenario A to B and C, both to D,
run with the flow-join machinery of src/ir/visitor.cpp. SetupJoinPoints
and SplitFlowVisit live in visitor.h (outside src/); following section
4.E of the design, the pre-pass makes the two-parent node D a join point
whose counter holds the upstream edges still to arrive beyond the last
one (one here), and the two branches B and C run on clones of the state
at the split, the pending branch being run from inside join_flows (the
split-flow queue) when the first branch blocks at D. Arrivals at D and
the completion of D use joinArrival and postJoinFlows, translated from
the source. Nodes are numbered A = 0, B = 1, C = 2, D = 3; the returned
list is the sequence of visited nodes. -/
def runDiamond {σ : Type} (merge : σ → σ → σ) (pre : σ → Nat → σ) (s0 : σ) :
    Option (List Nat × FlowJoinInfo σ × σ) :=
  let a := visitStep pre [] s0 0
  let infoD : FlowJoinInfo σ := ⟨1, false, none⟩
  -- clones of the post-A state for the two parallel branches
  let sB0 := a.2
  let sC0 := a.2
  -- branch B visits B, then reaches the join point D
  let b := visitStep pre a.1 sB0 1
  match joinArrival merge infoD b.2 with
  | none => none
  | some (i1, _, proceedB) =>
    if proceedB then none  -- the first arrival cannot complete the join
    else
      -- the split loop finds the pending branch C ready and runs it
      let c := visitStep pre b.1 sC0 2
      match joinArrival merge i1 c.2 with
      | none => none
      | some (i2, sC2, proceedC) =>
        if !proceedC then none  -- the last arrival completes the join
        else
          -- branch C proceeds into D: the single visit of the join node
          let d := visitStep pre c.1 sC2 3
          match postJoinFlows i2 d.2 with
          | none => none
          | some i3 =>
            -- back in branch B: BUG_CHECK(count < 0 and done), then
            -- flow_copy(*status.vclone) and D is skipped for branch B
            if i3.count < 0 && i3.done then
              match i3.vclone with
              | none => none
              | some acc => some (d.1, i3, acc)
            else none

/-! ### Reference resolution
(src/frontends/common/resolveReferences/resolveReferences.cpp)

Declarations are modelled by the data resolution inspects: the node
identity (getNode, as declId), the name, the source position of the
node (Util::SourceInfo abstracted to a Nat so that dsi <= nsi is the
Nat order), and the capability tags used as filters. IFunctional::
callMatches is a per-variant virtual defined outside src/; modelled
from the spec: a Functional declaration supports overload resolution
given a positional argument vector, so a call is matched through the
set of argument counts the declaration accepts. -/

structure Decl where
  declId : Nat
  dname : String
  srcPos : Nat
  isType : Bool
  isTypeVar : Bool
  isParserState : Bool
  isFunctional : Bool
  matchArities : List Nat
deriving DecidableEq, Repr

/-- Modelled from the spec: IFunctional::callMatches (outside src/),
overload resolution on a positional argument vector, represented by its
length. -/
def callMatches (d : Decl) (args : Nat) : Bool := d.matchArities.contains args

/-- A use site: IR::ID with its name and source position;
none models an invalid srcInfo. -/
structure UseId where
  uname : String
  srcPos : Option Nat
deriving DecidableEq, Repr

inductive ResolutionType where
  | any | ty | typeVariable
deriving DecidableEq, Repr

/-- The namespace capabilities of a node: IGeneralNamespace,
ISimpleNamespace (recording whether the node is an IR::Method, whose
parameters may be referenced in annotations before the method), or
neither. -/
inductive NSKind where
  | general
  | simple (isMethod : Bool)
  | neither
deriving DecidableEq, Repr

/-- A namespace node: its capability kind, the declarations its own
getDeclarations yields, the getDeclByName table of an ISimpleNamespace,
and the INestedNamespace list (none when the node lacks that
capability). -/
inductive NS where
  | mk (kind : NSKind) (ownDecls : List Decl) (byName : List (String × Decl))
       (nested : Option (List NS))

def NS.kind : NS → NSKind
  | .mk k _ _ _ => k

def NS.ownDecls : NS → List Decl
  | .mk _ d _ _ => d

def NS.byName : NS → List (String × Decl)
  | .mk _ _ b _ => b

def NS.nested : NS → Option (List NS)
  | .mk _ _ _ n => n

def sFind : List (String × Decl) → String → Option Decl
  | [], _ => none
  | (k, d) :: rest, k' => if k = k' then some d else sFind rest k'

/-- ResolutionContext::memoizeDeclarations (lines 25 to 39): the
declarations a namespace contributes: those of each nested namespace
(one level, in order), then its own. -/
def ctxGetDeclarations (ns : NS) : List Decl :=
  (match ns.nested with
   | some nns => nns.flatMap (·.ownDecls)
   | none => []) ++ ns.ownDecls

/-- ResolutionContext::memoizeDeclsByName (lines 41 to 46) and the
getDeclsByName accessor (declared in resolveReferences.h): the bucket of
declarations with the given name, in contribution order. -/
def getDeclsByName (ns : NS) (name : String) : List Decl :=
  (ctxGetDeclarations ns).filter (·.dname = name)

/-- The location filter of the IGeneralNamespace path of
ResolutionContext::lookup (lines 84 to 106): type variables and parser
states may be used before their definitions; otherwise the declaration
must stand at or before the use site; with kind Any, a declaration that
is the nearest enclosing IR::Declaration of the use site is rejected
(its own initializer cannot see it). With kind Type a self-referencing
type produces an error diagnostic but the boolean is returned unchanged;
diagnostics of lookup are not modelled. enclDecl is the node identity
found by findOrigCtxt of IR::Declaration. -/
def locationFilterGeneral (enclDecl : Option Decl) (rt : ResolutionType)
    (usePos : Nat) (d : Decl) : Bool :=
  if d.isTypeVar || d.isParserState then true
  else
    let before := decide (d.srcPos ≤ usePos)
    if rt = ResolutionType.any then
      match enclDecl with
      | some e => if e.declId = d.declId then false else before
      | none => before
    else before

/-- The kind filter of the IGeneralNamespace path (lines 67 to 81). -/
def kindFilter (rt : ResolutionType) (decls : List Decl) : List Decl :=
  match rt with
  | ResolutionType.any => decls
  | ResolutionType.ty => decls.filter (·.isType)
  | ResolutionType.typeVariable => decls.filter (·.isTypeVar)

/-- The ISimpleNamespace branch of ResolutionContext::lookup (lines 115
to 156): getDeclByName, the kind test, then in ordered mode with a valid
use position the location test — skipped entirely when the namespace is
an IR::Method and for type variables and parser states — including the
kind-Any rejection of the nearest enclosing declaration of the use
site. -/
def simpleLookupDecl (anyOrder : Bool) (enclDecl : Option Decl) (isMethod : Bool)
    (byName : List (String × Decl)) (name : UseId) (rt : ResolutionType) : Option Decl :=
  let decl1 : Option Decl :=
    match sFind byName name.uname with
    | some d =>
      (match rt with
       | ResolutionType.any => some d
       | ResolutionType.ty => if d.isType then some d else none
       | ResolutionType.typeVariable => if d.isTypeVar then some d else none)
    | none => none
  match decl1 with
  | some d =>
    (match name.srcPos with
     | some usePos =>
       if !anyOrder && !isMethod && !d.isTypeVar && !d.isParserState then
         let before := decide (d.srcPos ≤ usePos)
         let before :=
           if rt = ResolutionType.any then
             match enclDecl with
             | some e => if e.declId = d.declId then false else before
             | none => before
           else before
         if before then some d else none
       else some d
     | none => some d)
  | none => none

/-- The direct (this-namespace) part of ResolutionContext::lookup
(lines 59 to 160): the IGeneralNamespace bucket with kind and location
filters, the ISimpleNamespace single-declaration path, and the empty
answer of a namespace with neither capability (whose BUG_CHECK requires
the nested capability; the abort is modelled as an empty result, and no
claim depends on it). -/
def lookupLocal (anyOrder : Bool) (enclDecl : Option Decl) (ns : NS) (name : UseId)
    (rt : ResolutionType) : List Decl :=
  match ns.kind with
  | NSKind.general =>
    let decls1 := kindFilter rt (getDeclsByName ns name.uname)
    (match name.srcPos with
     | some usePos =>
       if !anyOrder then decls1.filter (locationFilterGeneral enclDecl rt usePos)
       else decls1
     | none => decls1)
  | NSKind.simple isMethod =>
    (simpleLookupDecl anyOrder enclDecl isMethod ns.byName name rt).toList
  | NSKind.neither => []

mutual

/-- ResolutionContext::lookup (lines 59 to 169): the direct part of the
current namespace; a nonempty answer returns, and otherwise the nested
namespaces of an INestedNamespace are searched in reverse order. -/
def lookup (anyOrder : Bool) (enclDecl : Option Decl) :
    NS → UseId → ResolutionType → List Decl
  | ns@(NS.mk _ _ _ nested), name, rt =>
    match lookupLocal anyOrder enclDecl ns name rt with
    | [] =>
      (match nested with
       | some nns => lookupNestedRev anyOrder enclDecl nns name rt
       | none => [])
    | rv => rv

/-- The reverse-order search of the nested namespaces (lines 161 to
167): later inner namespaces are consulted first. -/
def lookupNestedRev (anyOrder : Bool) (enclDecl : Option Decl) :
    List NS → UseId → ResolutionType → List Decl
  | [], _, _ => []
  | nn :: rest, name, rt =>
    match lookupNestedRev anyOrder enclDecl rest name rt with
    | [] => lookup anyOrder enclDecl nn name rt
    | rv => rv

end

/-- ResolutionContext::lookupMatchKind (lines 171 to 182): search the
Declaration_MatchKind groups of the enclosing P4Program in order; the
first nonempty lookup wins. -/
def lookupMatchKindIn (anyOrder : Bool) (enclDecl : Option Decl) :
    List NS → UseId → List Decl
  | [], _ => []
  | mk :: rest, name =>
    match lookup anyOrder enclDecl mk name ResolutionType.any with
    | [] => lookupMatchKindIn anyOrder enclDecl rest name
    | rv => rv

/-- The callee shape of a MethodCallExpression: an IR::Member, a
PathExpression, or anything else. -/
inductive MACallee where
  | member (name : String)
  | path (name : String)
  | otherCallee
deriving DecidableEq, Repr

/-- One context frame as seen by methodArguments: the original node
(a MethodCallStatement, a MethodCallExpression, a Declaration_Instance,
or another node), with argument vectors represented by their length.
For other nodes, whether the frame node is an Expression or a Type
(the condition for walking further up). -/
inductive MAFrame where
  | methodCallStmt (callee : MACallee) (args : Nat)
  | methodCall (callee : MACallee) (args : Nat)
  | declInstance (dname : String) (typeName : Option String)
                 (specializedName : Option String) (args : Nat)
  | other (isExprOrType : Bool)
deriving DecidableEq, Repr

/-- The context a resolution runs in: the anyOrder flag (set from the v1
language option at construction, line 23), the nearest enclosing
IR::Declaration of the use site, the enclosing namespaces from innermost
to outermost (successive findOrigCtxt of INamespace), the
Declaration_MatchKind groups of the enclosing P4Program (none when there
is no P4Program in the context), and the context frames inspected by
methodArguments. -/
structure RCtx where
  anyOrder : Bool
  enclDecl : Option Decl
  nsStack : List NS
  matchKinds : Option (List NS)
  maFrames : List MAFrame

/-- ResolutionContext::methodArguments (lines 184 to 222): walk the
context from the current frame; at a MethodCallExpression (or the one of
a MethodCallStatement) return its arguments when the callee member or
path matches the name, else stop; at a Declaration_Instance return its
arguments when its name, type name or specialized base name matches,
else stop; walk past any other frame only while it is an Expression or
a Type. -/
def methodArguments : List MAFrame → String → Option Nat
  | [], _ => none
  | f :: rest, name =>
    match f with
    | MAFrame.methodCallStmt callee args =>
      (match callee with
       | MACallee.member m => if m = name then some args else none
       | MACallee.path p => if p = name then some args else none
       | MACallee.otherCallee => none)
    | MAFrame.methodCall callee args =>
      (match callee with
       | MACallee.member m => if m = name then some args else none
       | MACallee.path p => if p = name then some args else none
       | MACallee.otherCallee => none)
    | MAFrame.declInstance dn tyName specName args =>
      if dn = name then some args
      else if tyName = some name then some args
      else if specName = some name then some args
      else none
    | MAFrame.other isExprOrType =>
      if isExprOrType then methodArguments rest name else none

def resolveWalk (anyOrder : Bool) (enclDecl : Option Decl) :
    List NS → Option (List NS) → UseId → ResolutionType → List Decl
  | [], mks, name, rt =>
    if rt = ResolutionType.any then
      match mks with
      | some groups => lookupMatchKindIn anyOrder enclDecl groups name
      | none => []
    else []
  | ns :: rest, mks, name, rt =>
    match lookup anyOrder enclDecl ns name rt with
    | [] => resolveWalk anyOrder enclDecl rest mks name rt
    | rv => rv

/-- ResolutionContext::resolve (lines 48 to 57): walk the enclosing
namespaces outward, returning the first nonempty lookup; with kind Any
and no match anywhere, fall back to the match-kind lookup. -/
def resolveDecls (rc : RCtx) (name : UseId) (rt : ResolutionType) : List Decl :=
  resolveWalk rc.anyOrder rc.enclDecl rc.nsStack rc.matchKinds name rt

/-- Diagnostics emitted by resolveUnique, in emission order. -/
inductive Diag where
  | notFound (name : String)
  | duplicate (name : String)
  | candidate (d : Decl)
deriving DecidableEq, Repr

/-- The overload filter of ResolutionContext::resolveUnique (lines 233
to 244): when more than one candidate remains and methodArguments finds
an argument vector, keep the candidates that are not Functional or whose
callMatches holds. -/
def overloadFilter (rc : RCtx) (name : UseId) (decls : List Decl) : List Decl :=
  if decls.length > 1 then
    match methodArguments rc.maFrames name.uname with
    | some args => decls.filter fun d => if d.isFunctional then callMatches d args else true
    | none => decls
  else decls

/-- The outcome dispatch of ResolutionContext::resolveUnique (lines 246
to 257): empty reports declaration not found; a singleton is the answer;
anything larger reports multiple matching declarations and lists every
candidate. -/
def uniqueOutcome (name : UseId) (decls : List Decl) : Option Decl × List Diag :=
  match decls with
  | [] => (none, [Diag.notFound name.uname])
  | [d] => (some d, [])
  | _ => (none, Diag.duplicate name.uname :: decls.map Diag.candidate)

/-- ResolutionContext::resolveUnique (lines 224 to 258): collect the
candidates through lookup in the given namespace, or through resolve,
then the overload filter, then the outcome dispatch. -/
def resolveUnique (rc : RCtx) (name : UseId) (rt : ResolutionType) (ns : Option NS) :
    Option Decl × List Diag :=
  uniqueOutcome name (overloadFilter rc name
    (match ns with
     | some n => lookup rc.anyOrder rc.enclDecl n name rt
     | none => resolveDecls rc name rt))

mutual

/-- No namespace reachable from this one (through nesting) is an
IR::Method simple namespace. -/
def nsNoMethod : NS → Bool
  | .mk kind _ _ nested =>
    (match kind with
     | NSKind.simple m => !m
     | _ => true) &&
    (match nested with
     | some nns => nsListNoMethod nns
     | none => true)

def nsListNoMethod : List NS → Bool
  | [] => true
  | n :: rest => nsNoMethod n && nsListNoMethod rest

end

/-- Tracker::busy (src/ir/visitor.cpp lines 295 to 298): tracked and not
yet done. -/
def trBusy (m : Tracker) (n : IRTree) : Bool :=
  match alFind m n.nid with
  | some info => !info.done
  | none => false

/-- Tracker::done (src/ir/visitor.cpp lines 307 to 310): tracked,
finished and visitOnce. -/
def trDone (m : Tracker) (n : IRTree) : Bool :=
  match alFind m n.nid with
  | some info => info.done && info.visitOnce
  | none => false

/-- Tracker::shouldVisitOnce (src/ir/visitor.cpp lines 313 to 317);
none models the BUG abort on a missing entry. -/
def trShouldVisitOnce (m : Tracker) (n : IRTree) : Option Bool :=
  (alFind m n.nid).map (·.visitOnce)

mutual

/-- The nesting depth of a tree: the number of frames its traversal
pushes below the frame of the root. -/
def treeHeight : IRTree → Nat
  | .node _ _ cs => 1 + treeHeightList cs

def treeHeightList : List IRTree → Nat
  | [] => 0
  | c :: cs => max (treeHeight c) (treeHeightList cs)

end

/-! ## Theorems

General helper lemmas about the association-list maps, then the claims. -/

theorem alFind_alInsert_self {α : Type} (m : List (Nat × α)) (k : Nat) (v : α) :
    alFind (alInsert m k v) k = some v := by
  simp [alInsert, alFind]

theorem alFind_alInsert_ne {α : Type} (m : List (Nat × α)) (k k' : Nat) (v : α)
    (h : k ≠ k') : alFind (alInsert m k v) k' = alFind m k' := by
  simp [alInsert, alFind, h]

theorem alFind_alUpdate {α : Type} (m : List (Nat × α)) (k k' : Nat) (v : α) :
    alFind (alUpdate m k v) k' =
      if k' = k then (alFind m k).map (fun _ => v) else alFind m k' := by
  induction m with
  | nil => simp [alUpdate, alFind]
  | cons hd tl ih =>
    obtain ⟨k0, v0⟩ := hd
    by_cases hA : k0 = k <;> by_cases hB : k0 = k' <;> by_cases hC : k' = k <;>
      simp_all [alUpdate, alFind]

theorem alFind_alUpdate_self {α : Type} (m : List (Nat × α)) (k : Nat) (v w : α)
    (h : alFind m k = some w) : alFind (alUpdate m k v) k = some v := by
  simp [alFind_alUpdate, h]

theorem alFind_alUpdate_isSome {α : Type} (m : List (Nat × α)) (k k' : Nat) (v : α) :
    (alFind (alUpdate m k v) k').isSome = (alFind m k').isSome := by
  rw [alFind_alUpdate]
  by_cases h : k' = k <;> simp [h, Option.isSome_map]

/-- C3: try_start(n, d) returns New on the first sighting of n and
inserts an in-progress entry with visitOnce = d; Busy when the visit is
in progress; Done when the visit finished and visitOnce is set; Revisit,
reopening the entry as in-progress, when the visit finished but
visitOnce was cleared — in both the rewriting ChangeTracker and the
read-only Tracker (the states are expressed through the trackers own
busy / done / shouldVisitOnce accessors). -/
theorem tracker_try_start_status (ct : ChangeTracker) (m : Tracker) (n : IRTree) (d : Bool) :
    (((ctTryStart ct n d).1 = VisitStatus.New ↔ alFind ct.visited n.nid = none)
      ∧ ((ctTryStart ct n d).1 = VisitStatus.Busy ↔ ctBusy ct n = true)
      ∧ ((ctTryStart ct n d).1 = VisitStatus.Done ↔ ctDone ct n = true)
      ∧ ((ctTryStart ct n d).1 = VisitStatus.Revisit ↔
          ((alFind ct.visited n.nid).isSome = true ∧ ctBusy ct n = false ∧
           ctShouldVisitOnce ct n = some false))
      ∧ ((ctTryStart ct n d).1 = VisitStatus.New →
          ctBusy (ctTryStart ct n d).2 n = true ∧
          ctShouldVisitOnce (ctTryStart ct n d).2 n = some d)
      ∧ ((ctTryStart ct n d).1 = VisitStatus.Revisit →
          ctBusy (ctTryStart ct n d).2 n = true))
    ∧
    (((trTryStart m n d).1 = VisitStatus.New ↔ alFind m n.nid = none)
      ∧ ((trTryStart m n d).1 = VisitStatus.Busy ↔ trBusy m n = true)
      ∧ ((trTryStart m n d).1 = VisitStatus.Done ↔ trDone m n = true)
      ∧ ((trTryStart m n d).1 = VisitStatus.Revisit ↔
          ((alFind m n.nid).isSome = true ∧ trBusy m n = false ∧
           trShouldVisitOnce m n = some false))
      ∧ ((trTryStart m n d).1 = VisitStatus.New →
          trBusy (trTryStart m n d).2 n = true ∧
          trShouldVisitOnce (trTryStart m n d).2 n = some d)
      ∧ ((trTryStart m n d).1 = VisitStatus.Revisit →
          trBusy (trTryStart m n d).2 n = true)) := by
  constructor
  · unfold ctTryStart ctBusy ctDone ctShouldVisitOnce
    cases h : alFind ct.visited n.nid with
    | none => simp [h, alFind_alInsert_self]
    | some info =>
      by_cases hb : info.visit_in_progress <;> by_cases ho : info.visitOnce <;>
        simp [h, hb, ho, alFind_alUpdate]
  · unfold trTryStart trBusy trDone trShouldVisitOnce
    cases h : alFind m n.nid with
    | none => simp [h, alFind_alInsert_self]
    | some info =>
      by_cases hb : info.done <;> by_cases ho : info.visitOnce <;>
        simp [h, hb, ho, alFind_alUpdate]

/-- Witness for C3: on an empty tracker, a fresh node is New and the
inserted entry is in progress with the given visitOnce default, for both
trackers. -/
theorem tracker_try_start_status_witness :
    ((ctTryStart ⟨false, []⟩ (IRTree.node 0 0 []) true).1 = VisitStatus.New
      ∧ ctBusy (ctTryStart ⟨false, []⟩ (IRTree.node 0 0 []) true).2 (IRTree.node 0 0 []) = true
      ∧ ctShouldVisitOnce (ctTryStart ⟨false, []⟩ (IRTree.node 0 0 []) true).2
          (IRTree.node 0 0 []) = some true)
    ∧ ((trTryStart [] (IRTree.node 0 0 []) true).1 = VisitStatus.New
      ∧ trBusy (trTryStart [] (IRTree.node 0 0 []) true).2 (IRTree.node 0 0 []) = true
      ∧ trShouldVisitOnce (trTryStart [] (IRTree.node 0 0 []) true).2
          (IRTree.node 0 0 []) = some true) := by
  have h := tracker_try_start_status ⟨false, []⟩ [] (IRTree.node 0 0 []) true
  have h1 := h.1.2.2.2.2.1 (by decide)
  have h2 := h.2.2.2.2.2.1 (by decide)
  exact ⟨⟨by decide, h1.1, h1.2⟩, ⟨by decide, h2.1, h2.2⟩⟩

/-- C2 counterexample: with forceClone off, an original node tracked in
progress with visitOnce = false, and a structurally different fresh
final node, finish returns true and registers an entry for the final
node — but that entry is not Done: the done accessor reports false and a
later try_start on it yields Revisit, not Done. The claim states the
registered entry is already finished (Done); that is false at this
input. -/
theorem changeTracker_finish_done_cex :
    (ctFinish ⟨false, [(0, ⟨true, false, some (IRTree.node 0 0 [])⟩)]⟩
        (IRTree.node 0 0 []) (some (IRTree.node 1 1 []))).map Prod.snd = some true
    ∧ (ctFinish ⟨false, [(0, ⟨true, false, some (IRTree.node 0 0 [])⟩)]⟩
        (IRTree.node 0 0 []) (some (IRTree.node 1 1 []))).map
        (fun r => alFind r.1.visited 1) =
      some (some ⟨false, false, some (IRTree.node 1 1 [])⟩)
    ∧ (ctFinish ⟨false, [(0, ⟨true, false, some (IRTree.node 0 0 [])⟩)]⟩
        (IRTree.node 0 0 []) (some (IRTree.node 1 1 []))).map
        (fun r => ctDone r.1 (IRTree.node 1 1 [])) = some false
    ∧ (ctFinish ⟨false, [(0, ⟨true, false, some (IRTree.node 0 0 [])⟩)]⟩
        (IRTree.node 0 0 []) (some (IRTree.node 1 1 []))).map
        (fun r => (ctTryStart r.1 (IRTree.node 1 1 []) true).1) =
      some VisitStatus.Revisit := ⟨rfl, rfl, rfl, rfl⟩

/-- C2 amended: for every pair (orig, final) whose orig is tracked
(try_start was invoked), finish stores final as the result of orig
exactly in the returning-true cases and returns true exactly when final
is null, or forceClone is set, or final is structurally different from
orig, or the identity of final is already tracked (coalescing — in
particular always when final is orig itself); in the structurally
different or forceClone case with a previously untracked final it
additionally registers an entry for final that is no longer in progress
and inherits the visitOnce flag of orig (so it reports Done on a later
sight exactly when that flag is set); when it returns false the rewrite
is a no-op: only the in-progress mark of orig is cleared. -/
theorem changeTracker_finish_characterization
    (ct : ChangeTracker) (orig : IRTree) (fin : Option IRTree) (info : CTInfo)
    (h : alFind ct.visited orig.nid = some info) :
    (ctFinish ct orig fin).isSome = true
    ∧ (∀ ct' b, ctFinish ct orig fin = some (ct', b) →
        (b = true ↔ (fin = none ∨ ct.forceClone = true
          ∨ (∃ f, fin = some f ∧ structEq f orig = false)
          ∨ (∃ f, fin = some f ∧ (alFind ct.visited f.nid).isSome = true))))
    ∧ (∀ ct' b f, ctFinish ct orig fin = some (ct', b) → fin = some f →
        alFind ct.visited f.nid = none →
        (ct.forceClone = true ∨ structEq f orig = false) →
        alFind ct'.visited f.nid = some ⟨false, info.visitOnce, some f⟩)
    ∧ (∀ ct' b, ctFinish ct orig fin = some (ct', b) →
        alFind ct'.visited orig.nid =
          some ⟨false, info.visitOnce, if b then fin else info.result⟩) := by
  have hm1 : alFind (alUpdate ct.visited orig.nid
      { info with visit_in_progress := false }) orig.nid =
      some { info with visit_in_progress := false } :=
    alFind_alUpdate_self _ _ _ _ h
  refine ⟨?_, ?_, ?_, ?_⟩
  · cases fin with
    | none => simp [ctFinish, h]
    | some f =>
      simp only [ctFinish, h]
      split_ifs <;> simp
  · intro ct' b hcb
    cases fin with
    | none =>
      simp only [ctFinish, h, Option.some.injEq, Prod.mk.injEq] at hcb
      simp [← hcb.2]
    | some f =>
      simp only [ctFinish, h] at hcb
      split_ifs at hcb with hifs hmem
      · simp only [Option.some.injEq, Prod.mk.injEq] at hcb
        rcases Bool.or_eq_true _ _ |>.mp hifs with hfc | hdiff
        · simp [← hcb.2, hfc]
        · have h1 : structEq f orig = false := by
            rcases Bool.and_eq_true _ _ |>.mp hdiff with ⟨_, h2⟩
            simpa using h2
          exact iff_of_true hcb.2.symm (Or.inr (Or.inr (Or.inl ⟨f, rfl, h1⟩)))
      · simp only [Option.some.injEq, Prod.mk.injEq] at hcb
        rw [alFind_alUpdate_isSome] at hmem
        exact iff_of_true hcb.2.symm (Or.inr (Or.inr (Or.inr ⟨f, rfl, hmem⟩)))
      · simp only [Option.some.injEq, Prod.mk.injEq] at hcb
        refine iff_of_false (by simp [← hcb.2]) ?_
        rw [alFind_alUpdate_isSome] at hmem
        rintro (hno | hfc | ⟨f', hf', hse⟩ | ⟨f', hf', hmm⟩)
        · exact Option.noConfusion hno
        · rcases Bool.or_eq_false_iff.mp (Bool.not_eq_true _ |>.mp hifs) with ⟨h1, _⟩
          rw [h1] at hfc; exact Bool.noConfusion hfc
        · have heq : f' = f := (Option.some.inj hf').symm
          subst heq
          have hne : f'.nid ≠ orig.nid := by
            intro heq2
            rw [heq2, h] at hmem
            simp at hmem
          rcases Bool.or_eq_false_iff.mp (Bool.not_eq_true _ |>.mp hifs) with ⟨_, h2⟩
          rcases Bool.and_eq_false_iff.mp h2 with h3 | h3
          · simp only [bne_eq_false_iff_eq] at h3
            exact hne h3
          · simp at h3
            rw [h3] at hse; exact Bool.noConfusion hse
        · have heq : f' = f := (Option.some.inj hf').symm
          subst heq
          exact absurd hmm hmem
  · intro ct' b f hcb hf hnone hforce
    subst hf
    have hne : f.nid ≠ orig.nid := by
      intro heq; rw [heq, h] at hnone; exact Option.noConfusion hnone
    have hcond : (ct.forceClone || (f.nid != orig.nid && !structEq f orig)) = true := by
      rcases hforce with h1 | h1
      · simp [h1]
      · simp [h1, bne, hne]
    simp only [ctFinish, h, hcond, if_true, Option.some.injEq, Prod.mk.injEq] at hcb
    have hstep : alFind (alUpdate (alUpdate ct.visited orig.nid
        { info with visit_in_progress := false }) orig.nid
        { info with visit_in_progress := false, result := some f }) f.nid = none := by
      rw [alFind_alUpdate, if_neg hne, alFind_alUpdate, if_neg hne]
      exact hnone
    rw [← hcb.1]
    simp only [alEmplace, hstep, alFind_alInsert_self]
  · intro ct' b hcb
    cases fin with
    | none =>
      simp only [ctFinish, h, Option.some.injEq, Prod.mk.injEq] at hcb
      rw [← hcb.1, ← hcb.2]
      simp only [if_pos rfl]
      exact alFind_alUpdate_self _ _ _ _ hm1
    | some f =>
      simp only [ctFinish, h] at hcb
      split_ifs at hcb with hifs hmem
      · simp only [Option.some.injEq, Prod.mk.injEq] at hcb
        rw [← hcb.1, ← hcb.2]
        simp only [if_pos rfl]
        have hupd : alFind (alUpdate (alUpdate ct.visited orig.nid
            { info with visit_in_progress := false }) orig.nid
            { info with visit_in_progress := false, result := some f }) orig.nid =
            some { info with visit_in_progress := false, result := some f } :=
          alFind_alUpdate_self _ _ _ _ hm1
        simp only [alEmplace]
        cases hfind : alFind (alUpdate (alUpdate ct.visited orig.nid
            { info with visit_in_progress := false }) orig.nid
            { info with visit_in_progress := false, result := some f }) f.nid with
        | some w => exact hupd
        | none =>
          rw [alFind_alInsert_ne]
          · exact hupd
          · intro heq
            rw [heq] at hfind; rw [hfind] at hupd; exact Option.noConfusion hupd
      · simp only [Option.some.injEq, Prod.mk.injEq] at hcb
        rw [← hcb.1, ← hcb.2]
        simp only [if_pos rfl]
        exact alFind_alUpdate_self _ _ _ _ hm1
      · simp only [Option.some.injEq, Prod.mk.injEq] at hcb
        rw [← hcb.1, ← hcb.2]
        simp only [Bool.false_eq_true, if_false]
        exact hm1

/-- C1: Inspector::apply_visitor always returns the very node pointer it
was given: whenever the traversal completes (no assertion abort), the
returned root is the input tree itself, every node identity included.
The visitor state can only carry the read-only tracker and the user
data, so no node of the tree is substituted or mutated. -/
theorem inspector_apply_returns_input {σ : Type} (V : InspVisitor σ) (st : InspState σ)
    (ctx : List IRTree) (t : IRTree) (s : InspState σ) (u : IRTree)
    (h : inspApply V st ctx t = some (s, u)) : u = t := by
  cases t with
  | node i l cs =>
    simp only [inspApply] at h
    split at h
    · split at h <;> try simp_all
      · split at h <;> try simp_all
        split at h <;> simp_all
    · simp_all

/-- Witness for C1: a two-node tree visited by a trivial Inspector
completes and the theorem yields that the returned root is the input. -/
theorem inspector_apply_returns_input_witness :
    inspApply (⟨true, fun s _ => (s, true), fun s _ => s, fun s _ => s,
        fun s _ => s⟩ : InspVisitor Unit) ⟨[], ()⟩ []
        (IRTree.node 0 0 [IRTree.node 1 1 []]) =
      some (⟨[(1, ⟨true, true⟩), (0, ⟨true, true⟩)], ()⟩,
            IRTree.node 0 0 [IRTree.node 1 1 []])
    ∧ IRTree.node 0 0 [IRTree.node 1 1 []] = IRTree.node 0 0 [IRTree.node 1 1 []] :=
  ⟨by rfl,
   inspector_apply_returns_input
     (⟨true, fun s _ => (s, true), fun s _ => s, fun s _ => s,
        fun s _ => s⟩ : InspVisitor Unit) ⟨[], ()⟩ []
     (IRTree.node 0 0 [IRTree.node 1 1 []])
     ⟨[(1, ⟨true, true⟩), (0, ⟨true, true⟩)], ()⟩
     (IRTree.node 0 0 [IRTree.node 1 1 []]) (by rfl)⟩

theorem alFind_alInsert_isSome {α : Type} (m : List (Nat × α)) (k k' : Nat) (v : α)
    (h : (alFind m k').isSome = true) : (alFind (alInsert m k v) k').isSome = true := by
  by_cases hk : k = k'
  · subst hk; simp [alFind_alInsert_self]
  · rw [alFind_alInsert_ne _ _ _ _ hk]; exact h

theorem trTryStart_preserves (m : Tracker) (n : IRTree) (d : Bool) (k : Nat)
    (h : (alFind m k).isSome = true) :
    (alFind (trTryStart m n d).2 k).isSome = true := by
  unfold trTryStart
  cases hf : alFind m n.nid with
  | none => exact alFind_alInsert_isSome _ _ _ _ h
  | some info =>
    by_cases hb : info.done <;> by_cases ho : info.visitOnce <;>
      simp [hb, ho, alFind_alUpdate_isSome, h]

theorem trFinish_preserves (m : Tracker) (n : IRTree) (m' : Tracker) (k : Nat)
    (hr : trFinish m n = some m') (h : (alFind m k).isSome = true) :
    (alFind m' k).isSome = true := by
  unfold trFinish at hr
  cases hf : alFind m n.nid with
  | none => rw [hf] at hr; exact Option.noConfusion hr
  | some info =>
    rw [hf] at hr
    obtain rfl : alUpdate m n.nid { info with done := true } = m' := Option.some.inj hr
    simp [alFind_alUpdate_isSome, h]

theorem trFinish_isSome (m : Tracker) (n : IRTree)
    (h : (alFind m n.nid).isSome = true) : (trFinish m n).isSome = true := by
  unfold trFinish
  cases hf : alFind m n.nid with
  | none => rw [hf] at h; exact Bool.noConfusion h
  | some info => simp

theorem trTryStart_started (m : Tracker) (n : IRTree) (d : Bool) :
    (alFind (trTryStart m n d).2 n.nid).isSome = true := by
  unfold trTryStart
  cases hf : alFind m n.nid with
  | none => simp [alFind_alInsert_self]
  | some info =>
    by_cases hb : info.done <;> by_cases ho : info.visitOnce <;>
      simp [hb, ho, alFind_alUpdate, hf]

mutual

theorem inspApply_preserves {σ : Type} (V : InspVisitor σ) (st : InspState σ)
    (ctx : List IRTree) (t : IRTree) (k : Nat) (r : InspState σ × IRTree)
    (hr : inspApply V st ctx t = some r)
    (h : (alFind st.tracker k).isSome = true) : (alFind r.1.tracker k).isSome = true := by
  cases t with
  | node i l cs =>
    simp only [inspApply] at hr
    by_cases hd : pushDepth ctx < 10000
    case neg => simp [hd] at hr
    rw [if_pos hd] at hr
    rcases htr : trTryStart st.tracker (IRTree.node i l cs) V.visitDagOnce with ⟨status, m⟩
    rw [htr] at hr
    have hm : (alFind m k).isSome = true := by
      have hp := trTryStart_preserves st.tracker (IRTree.node i l cs) V.visitDagOnce k h
      rw [htr] at hp; exact hp
    cases status <;> dsimp only at hr
    -- New
    · split at hr
      · exact Option.noConfusion hr
      next st2 heq2 =>
        split at hr
        · exact Option.noConfusion hr
        next m' heq3 =>
          obtain rfl := Option.some.inj hr
          refine trFinish_preserves st2.tracker _ m' k heq3 ?_
          split at heq2
          · split at heq2
            · exact Option.noConfusion heq2
            next st1 heq4 =>
              obtain rfl := Option.some.inj heq2
              exact inspChildren_preserves V _ _ cs k st1 heq4 hm
          · obtain rfl := Option.some.inj heq2
            exact hm
    -- Revisit
    · split at hr
      · exact Option.noConfusion hr
      next st2 heq2 =>
        split at hr
        · exact Option.noConfusion hr
        next m' heq3 =>
          obtain rfl := Option.some.inj hr
          refine trFinish_preserves st2.tracker _ m' k heq3 ?_
          split at heq2
          · split at heq2
            · exact Option.noConfusion heq2
            next st1 heq4 =>
              obtain rfl := Option.some.inj heq2
              exact inspChildren_preserves V _ _ cs k st1 heq4 hm
          · obtain rfl := Option.some.inj heq2
            exact hm
    -- Busy
    · obtain rfl := Option.some.inj hr
      exact hm
    -- Done
    · obtain rfl := Option.some.inj hr
      exact hm

theorem inspChildren_preserves {σ : Type} (V : InspVisitor σ) (st : InspState σ)
    (ctx : List IRTree) (cs : List IRTree) (k : Nat) (r : InspState σ)
    (hr : inspChildren V st ctx cs = some r)
    (h : (alFind st.tracker k).isSome = true) : (alFind r.tracker k).isSome = true := by
  cases cs with
  | nil =>
    simp only [inspChildren] at hr
    obtain rfl := Option.some.inj hr
    exact h
  | cons c rest =>
    simp only [inspChildren] at hr
    split at hr
    · exact Option.noConfusion hr
    next st' c' heq =>
      exact inspChildren_preserves V st' ctx rest k r hr
        (inspApply_preserves V st ctx c k (st', c') heq h)

end

mutual

theorem inspApply_total {σ : Type} (V : InspVisitor σ) (st : InspState σ)
    (ctx : List IRTree) (t : IRTree) (h : ctx.length + treeHeight t < 10000) :
    (inspApply V st ctx t).isSome = true := by
  cases t with
  | node i l cs =>
    have hh : treeHeight (IRTree.node i l cs) = 1 + treeHeightList cs := rfl
    have hd : pushDepth ctx < 10000 := by
      rw [hh] at h
      simp only [pushDepth]
      omega
    simp only [inspApply, if_pos hd]
    rcases htr : trTryStart st.tracker (IRTree.node i l cs) V.visitDagOnce with ⟨status, m⟩
    have hstarted : (alFind m (IRTree.node i l cs).nid).isSome = true := by
      have hp := trTryStart_started st.tracker (IRTree.node i l cs) V.visitDagOnce
      rw [htr] at hp; exact hp
    cases status <;> dsimp only
    -- New
    · by_cases hp : (V.preorder st.user (IRTree.node i l cs)).2 = true
      · rw [if_pos hp]
        have hch : (inspChildren V ⟨m, (V.preorder st.user (IRTree.node i l cs)).1⟩
            (IRTree.node i l cs :: ctx) cs).isSome = true := by
          refine inspChildren_total V _ _ cs ?_
          rw [hh] at h
          simp only [List.length_cons]
          omega
        obtain ⟨st1, hst1⟩ := Option.isSome_iff_exists.mp hch
        rw [hst1]
        dsimp only
        have hfin : (trFinish st1.tracker (IRTree.node i l cs)).isSome = true := by
          refine trFinish_isSome _ _ ?_
          exact inspChildren_preserves V _ _ cs (IRTree.node i l cs).nid st1 hst1 hstarted
        obtain ⟨m', hm'⟩ := Option.isSome_iff_exists.mp hfin
        rw [hm']
        rfl
      · rw [if_neg hp]
        dsimp only
        have hfin : (trFinish m (IRTree.node i l cs)).isSome = true :=
          trFinish_isSome _ _ hstarted
        obtain ⟨m', hm'⟩ := Option.isSome_iff_exists.mp hfin
        rw [hm']
        rfl
    -- Revisit
    · by_cases hp : (V.preorder st.user (IRTree.node i l cs)).2 = true
      · rw [if_pos hp]
        have hch : (inspChildren V ⟨m, (V.preorder st.user (IRTree.node i l cs)).1⟩
            (IRTree.node i l cs :: ctx) cs).isSome = true := by
          refine inspChildren_total V _ _ cs ?_
          rw [hh] at h
          simp only [List.length_cons]
          omega
        obtain ⟨st1, hst1⟩ := Option.isSome_iff_exists.mp hch
        rw [hst1]
        dsimp only
        have hfin : (trFinish st1.tracker (IRTree.node i l cs)).isSome = true := by
          refine trFinish_isSome _ _ ?_
          exact inspChildren_preserves V _ _ cs (IRTree.node i l cs).nid st1 hst1 hstarted
        obtain ⟨m', hm'⟩ := Option.isSome_iff_exists.mp hfin
        rw [hm']
        rfl
      · rw [if_neg hp]
        dsimp only
        have hfin : (trFinish m (IRTree.node i l cs)).isSome = true :=
          trFinish_isSome _ _ hstarted
        obtain ⟨m', hm'⟩ := Option.isSome_iff_exists.mp hfin
        rw [hm']
        rfl
    -- Busy
    · rfl
    -- Done
    · rfl

theorem inspChildren_total {σ : Type} (V : InspVisitor σ) (st : InspState σ)
    (ctx : List IRTree) (cs : List IRTree)
    (h : ctx.length + treeHeightList cs < 10000) :
    (inspChildren V st ctx cs).isSome = true := by
  cases cs with
  | nil => rfl
  | cons c rest =>
    have hc : ctx.length + treeHeight c < 10000 := by
      have : treeHeightList (c :: rest) = max (treeHeight c) (treeHeightList rest) := rfl
      rw [this] at h
      omega
    have hrest : ctx.length + treeHeightList rest < 10000 := by
      have : treeHeightList (c :: rest) = max (treeHeight c) (treeHeightList rest) := rfl
      rw [this] at h
      omega
    obtain ⟨r, hrr⟩ := Option.isSome_iff_exists.mp (inspApply_total V st ctx c hc)
    simp only [inspChildren, hrr]
    obtain ⟨st', u⟩ := r
    exact inspChildren_total V st' ctx rest hrest

end

/-- C8 counterexample: a single-node descent entered at context depth
9999 pushes its frame at depth exactly 10000 — a nesting depth that does
not exceed 10000, hence within the stated bound — yet the PushContext
assert(current.depth < 10000) fires and the traversal aborts instead of
pushing and popping the frame. -/
theorem context_depth_at_bound_aborts_cex :
    pushDepth (List.replicate 9999 (IRTree.node 1 1 [])) = 10000
    ∧ inspApply (⟨true, fun s _ => (s, true), fun s _ => s, fun s _ => s,
        fun s _ => s⟩ : InspVisitor Unit) ⟨[], ()⟩
        (List.replicate 9999 (IRTree.node 1 1 [])) (IRTree.node 0 0 []) = none := by
  have hlen : pushDepth (List.replicate 9999 (IRTree.node 1 1 [])) = 10000 := by
    simp only [pushDepth, List.length_replicate]
  constructor
  · exact hlen
  · simp only [inspApply]
    rw [hlen]
    simp

/-- C8 amended: the Context stack has a fixed upper bound of 10000 with
a strict check: a frame pushed at depth 10000 or beyond fails the
assert(current.depth < 10000) and the traversal aborts as a compiler
bug; every traversal whose nesting depth stays strictly below 10000
completes, pushing a frame (at the parent depth plus one) on entry to
each node and popping it on exit. -/
theorem context_depth_bound {σ : Type} (V : InspVisitor σ) (st : InspState σ)
    (ctx : List IRTree) (t : IRTree) :
    (10000 ≤ pushDepth ctx → inspApply V st ctx t = none)
    ∧ (ctx.length + treeHeight t < 10000 → (inspApply V st ctx t).isSome = true) := by
  constructor
  · intro hge
    cases t with
    | node i l cs => simp [inspApply, Nat.not_lt.mpr hge]
  · exact inspApply_total V st ctx t

/-- Witness for C8: the bound fires at a frame of depth 10000, and a
small traversal below the bound completes. -/
theorem context_depth_bound_witness :
    (10000 ≤ pushDepth (List.replicate 9999 (IRTree.node 1 1 []))
      ∧ inspApply (⟨true, fun s _ => (s, true), fun s _ => s, fun s _ => s,
          fun s _ => s⟩ : InspVisitor Unit) ⟨[], ()⟩
          (List.replicate 9999 (IRTree.node 1 1 [])) (IRTree.node 0 0 []) = none)
    ∧ (([] : List IRTree).length + treeHeight (IRTree.node 0 0 []) < 10000
      ∧ (inspApply (⟨true, fun s _ => (s, true), fun s _ => s, fun s _ => s,
          fun s _ => s⟩ : InspVisitor Unit) ⟨[], ()⟩ []
          (IRTree.node 0 0 [])).isSome = true) :=
  ⟨⟨by simp only [pushDepth, List.length_replicate]; omega,
    (context_depth_bound (⟨true, fun s _ => (s, true), fun s _ => s, fun s _ => s,
        fun s _ => s⟩ : InspVisitor Unit) ⟨[], ()⟩
        (List.replicate 9999 (IRTree.node 1 1 [])) (IRTree.node 0 0 [])).1
      (by simp only [pushDepth, List.length_replicate]; omega)⟩,
   ⟨by decide,
    (context_depth_bound (⟨true, fun s _ => (s, true), fun s _ => s, fun s _ => s,
        fun s _ => s⟩ : InspVisitor Unit) ⟨[], ()⟩ [] (IRTree.node 0 0 [])).2
      (by decide)⟩⟩

/-- C6 counterexample: preorder substitutes the node p (address 100,
label 9) for the clone, and postorder then returns a brand-new node
(address 50) that is structurally equal to p but is not the working
clone. The canonicalization guard requires final_result == copy, so the
published rewrite is the structurally-equal new node, not p: the claim
that any q structurally equal to p is canonicalized to p fails at this
input. -/
theorem transform_canonicalize_requires_copy_cex :
    (tApply (⟨true, false,
        fun s _ => ⟨s, some (IRTree.node 100 9 []), false⟩,
        fun s _ => (s, some (IRTree.node 50 9 [])),
        fun s _ _ => s, fun s _ => s⟩ : TransVisitor Unit)
      5 ⟨⟨false, []⟩, 10, false, ()⟩ [] (some (IRTree.node 0 0 []))).map Prod.snd =
      some (some (IRTree.node 50 9 []))
    ∧ structEq (IRTree.node 50 9 []) (IRTree.node 100 9 []) = true
    ∧ (IRTree.node 50 9 []).nid ≠ (IRTree.node 100 9 []).nid :=
  ⟨rfl, rfl, by decide⟩

/-- C6 amended: in Transform::apply_visitor, when preorder substitutes a
different node p for the clone and the node q produced after visiting
children and postorder is the working clone itself (same address as
copy), differs from p in identity, and is structurally equal to p, the
canonicalization step publishes p, preserving the identity of p. -/
theorem transform_canonicalize_on_copy (copyId : Nat) (preR finR : Option IRTree)
    (p f : IRTree) (hpre : preR = some p) (hfin : finR = some f)
    (hcopy : f.nid = copyId) (hne : f.nid ≠ p.nid) (hse : structEq f p = true) :
    transformCanonicalize copyId preR finR = some p := by
  subst hpre hfin hcopy
  simp [transformCanonicalize, hne, hse]

/-- Witness for C6: the canonicalization rewrites the working clone
(address 11, structurally equal to p at address 100) into p itself, and
an end-to-end Transform run whose postorder returns its argument indeed
publishes p, identity preserved. -/
theorem transform_canonicalize_on_copy_witness :
    structEq (IRTree.node 11 9 []) (IRTree.node 100 9 []) = true
    ∧ transformCanonicalize 11 (some (IRTree.node 100 9 []))
        (some (IRTree.node 11 9 [])) = some (IRTree.node 100 9 [])
    ∧ (tApply (⟨true, false, fun s _ => ⟨s, some (IRTree.node 100 9 []), false⟩,
        fun s c => (s, some c), fun s _ _ => s, fun s _ => s⟩ : TransVisitor Unit)
        5 ⟨⟨false, []⟩, 10, false, ()⟩ [] (some (IRTree.node 0 0 []))).map Prod.snd =
      some (some (IRTree.node 100 9 [])) :=
  ⟨rfl,
   transform_canonicalize_on_copy 11 (some (IRTree.node 100 9 []))
     (some (IRTree.node 11 9 [])) (IRTree.node 100 9 []) (IRTree.node 11 9 [])
     rfl rfl rfl (by decide) rfl,
   rfl⟩

/-- C7 counterexample: run the diamond to completion — the join point D
ends done with count -1 — and then let a second visit reach D.
join_flows decrements the count to -2, merges the accumulator and
returns false, so D is visited again rather than skipped; completing
that visit passes the BUG_CHECK of post_join_flows because count is now
below -1. The claim that any attempt to visit the join point a second
time after done aborts with the flow-join bug message is false at this
input: the second visit completes without any abort. -/
theorem flow_join_second_visit_no_abort_cex :
    runDiamond ((· ++ ·) : List Nat → List Nat → List Nat) (fun s n => s ++ [n]) [] =
      some ([0, 1, 2, 3], ⟨-1, true, some [0, 2, 0, 1, 3]⟩, [0, 2, 0, 1, 3])
    ∧ joinFlowsNoSplit ((· ++ ·) : List Nat → List Nat → List Nat) false
        ⟨-1, true, some [0, 2, 0, 1, 3]⟩ [9] =
      some (⟨-2, true, some [0, 2, 0, 1, 3]⟩, [9, 0, 2, 0, 1, 3], false)
    ∧ postJoinFlows (⟨-2, true, some [0, 2, 0, 1, 3]⟩ : FlowJoinInfo (List Nat))
        [9, 0, 2, 0, 1, 3] =
      some ⟨-2, true, some [9, 0, 2, 0, 1, 3]⟩ :=
  ⟨rfl, rfl, rfl⟩

/-- C7 amended: post_join_flows marks the join point done and copies the
current state into the accumulator; it aborts with the message
flow join point visited more than once exactly when the point is already
done and its count has not fallen below -1; a later visit that reaches
the point through join_flows decrements the count below -1, merges the
accumulator and proceeds, and its completion is tolerated; and in the
diamond A to B and C to D, the join node D is visited exactly once, with
done set and count -1 at the end. -/
theorem flow_join_done_bug_and_diamond :
    (∀ (σ : Type) (info : FlowJoinInfo σ) (cur : σ), info.vclone.isSome = true →
        (postJoinFlows info cur = none ↔ (info.done = true ∧ -1 ≤ info.count)))
    ∧ (∀ (σ : Type) (info : FlowJoinInfo σ) (cur : σ) (i' : FlowJoinInfo σ),
        postJoinFlows info cur = some i' →
        i'.done = true ∧ i'.vclone = some cur ∧ i'.count = info.count)
    ∧ (∀ (σ : Type) (merge : σ → σ → σ) (acc cur cur2 : σ) (c : Int), c < 0 →
        joinFlowsNoSplit merge false ⟨c, true, some acc⟩ cur =
          some (⟨c - 1, true, some acc⟩, merge cur acc, false)
        ∧ postJoinFlows (⟨c - 1, true, some acc⟩ : FlowJoinInfo σ) cur2 =
            some ⟨c - 1, true, some cur2⟩)
    ∧ (runDiamond ((· ++ ·) : List Nat → List Nat → List Nat) (fun s n => s ++ [n])
        []).map (fun r => (r.1.count 3, r.2.1.done, r.2.1.count)) =
      some (1, true, -1) := by
  refine ⟨?_, ?_, ?_, rfl⟩
  · intro σ info cur hv
    unfold postJoinFlows
    obtain ⟨c, d, vc⟩ := info
    cases vc with
    | none => simp at hv
    | some acc =>
      by_cases hd : d <;> by_cases hc : c < -1
      all_goals simp [hd, hc, Int.not_lt]
      all_goals omega
  · intro σ info cur i' hsome
    unfold postJoinFlows at hsome
    split at hsome
    · exact Option.noConfusion hsome
    · split at hsome
      · exact Option.noConfusion hsome
      · obtain rfl := Option.some.inj hsome
        exact ⟨rfl, rfl, rfl⟩
  · intro σ merge acc cur cur2 c hc
    constructor
    · unfold joinFlowsNoSplit joinArrival
      have h1 : c - 1 < 0 := by omega
      simp [h1]
    · unfold postJoinFlows
      have h2 : c - 1 < -1 := by omega
      simp [h2]

/-- Witness for C7: at a completed join point (done, count -1) the
characterization reports that one more completion would trip the
BUG_CHECK, and a tolerated later arrival merges and proceeds. -/
theorem flow_join_done_bug_and_diamond_witness :
    ((⟨-1, true, some 7⟩ : FlowJoinInfo Nat).vclone.isSome = true
      ∧ (postJoinFlows (⟨-1, true, some 7⟩ : FlowJoinInfo Nat) 5 = none ↔
          ((⟨-1, true, some 7⟩ : FlowJoinInfo Nat).done = true ∧
           -1 ≤ (⟨-1, true, some 7⟩ : FlowJoinInfo Nat).count)))
    ∧ ((-1 : Int) < 0
      ∧ joinFlowsNoSplit (fun (a b : Nat) => a + b) false
          (⟨-1, true, some 7⟩ : FlowJoinInfo Nat) 1 =
        some (⟨-1 - 1, true, some 7⟩, 1 + 7, false)) :=
  ⟨⟨rfl, flow_join_done_bug_and_diamond.1 Nat ⟨-1, true, some 7⟩ 5 rfl⟩,
   ⟨by decide,
    (flow_join_done_bug_and_diamond.2.2.1 Nat (fun a b => a + b) 7 1 2 (-1)
      (by decide)).1⟩⟩

theorem locationFilterGeneral_sound (e : Option Decl) (rt : ResolutionType)
    (usePos : Nat) (d : Decl)
    (h : locationFilterGeneral e rt usePos d = true) :
    d.isTypeVar = true ∨ d.isParserState = true ∨ d.srcPos ≤ usePos := by
  simp only [locationFilterGeneral] at h
  by_cases h1 : (d.isTypeVar || d.isParserState) = true
  · rcases Bool.or_eq_true _ _ |>.mp h1 with h2 | h2
    · exact Or.inl h2
    · exact Or.inr (Or.inl h2)
  · rw [if_neg h1] at h
    right; right
    split at h
    · split at h
      · split at h
        · exact Bool.noConfusion h
        · exact of_decide_eq_true h
      · exact of_decide_eq_true h
    · exact of_decide_eq_true h

theorem optIf_eq_some {α : Type} (c : Bool) (x y : α)
    (h : (if c = true then some x else none) = some y) : c = true ∧ y = x := by
  by_cases hc : c = true
  · rw [if_pos hc] at h
    exact ⟨hc, (Option.some.inj h).symm⟩
  · rw [if_neg hc] at h
    exact Option.noConfusion h

theorem simpleLookupDecl_sound (e : Option Decl) (isMethod : Bool)
    (byName : List (String × Decl)) (name : UseId) (rt : ResolutionType)
    (usePos : Nat) (d : Decl)
    (hp : name.srcPos = some usePos)
    (hres : simpleLookupDecl false e isMethod byName name rt = some d) :
    isMethod = true ∨ d.isTypeVar = true ∨ d.isParserState = true ∨ d.srcPos ≤ usePos := by
  simp only [simpleLookupDecl, hp] at hres
  split at hres
  case h_2 => exact Option.noConfusion hres
  case h_1 d0 heq0 =>
    split at hres
    case isTrue hg =>
      obtain ⟨hb, hdd⟩ := optIf_eq_some _ _ _ hres
      subst hdd
      right; right
      split at hb
      · split at hb
        · split at hb
          · exact Bool.noConfusion hb
          · exact Or.inr (of_decide_eq_true hb)
        · exact Or.inr (of_decide_eq_true hb)
      · exact Or.inr (of_decide_eq_true hb)
    case isFalse hg =>
      have hdd : d = d0 := (Option.some.inj hres).symm
      subst hdd
      have hg' : (!false && !isMethod && !d.isTypeVar && !d.isParserState) = false :=
        Bool.not_eq_true _ |>.mp hg
      rcases Bool.and_eq_false_iff.mp hg' with h1 | h1
      · rcases Bool.and_eq_false_iff.mp h1 with h2 | h2
        · rcases Bool.and_eq_false_iff.mp h2 with h3 | h3
          · exact Bool.noConfusion h3
          · left; simpa using h3
        · right; left; simpa using h2
      · right; right; left; simpa using h1

theorem nsNoMethod_simple_true (own : List Decl) (byName : List (String × Decl))
    (nested : Option (List NS)) :
    nsNoMethod (NS.mk (NSKind.simple true) own byName nested) = false := by
  simp [nsNoMethod]

theorem lookupLocal_sound (e : Option Decl) (ns : NS) (name : UseId)
    (rt : ResolutionType) (usePos : Nat) (d : Decl)
    (hp : name.srcPos = some usePos)
    (hd : d ∈ lookupLocal false e ns name rt) :
    d.isTypeVar = true ∨ d.isParserState = true ∨ nsNoMethod ns = false ∨
      d.srcPos ≤ usePos := by
  obtain ⟨kind, own, byName, nested⟩ := ns
  simp only [lookupLocal, NS.kind, NS.byName, hp] at hd
  cases kind with
  | general =>
    simp only [Bool.not_false, eq_self_iff_true, if_true] at hd
    have hmem := List.mem_filter.mp hd
    rcases locationFilterGeneral_sound e rt usePos d hmem.2 with h | h | h
    · exact Or.inl h
    · exact Or.inr (Or.inl h)
    · exact Or.inr (Or.inr (Or.inr h))
  | simple isMethod =>
    rw [Option.mem_toList] at hd
    rcases simpleLookupDecl_sound e isMethod byName name rt usePos d hp hd with
      h | h | h | h
    · refine Or.inr (Or.inr (Or.inl ?_))
      rw [h]
      exact nsNoMethod_simple_true own byName nested
    · exact Or.inl h
    · exact Or.inr (Or.inl h)
    · exact Or.inr (Or.inr (Or.inr h))
  | neither => exact absurd hd (List.not_mem_nil d)

theorem simpleLookupDecl_anyOrder (e : Option Decl) (isMethod : Bool)
    (byName : List (String × Decl)) (nm : String) (si si' : Option Nat)
    (rt : ResolutionType) :
    simpleLookupDecl true e isMethod byName ⟨nm, si⟩ rt =
      simpleLookupDecl true e isMethod byName ⟨nm, si'⟩ rt := by
  simp only [simpleLookupDecl]
  cases si <;> cases si' <;> simp

theorem lookupLocal_anyOrder (e : Option Decl) (ns : NS) (nm : String)
    (si si' : Option Nat) (rt : ResolutionType) :
    lookupLocal true e ns ⟨nm, si⟩ rt = lookupLocal true e ns ⟨nm, si'⟩ rt := by
  obtain ⟨kind, own, byName, nested⟩ := ns
  cases kind with
  | general =>
    simp only [lookupLocal, NS.kind]
    cases si <;> cases si' <;> simp
  | simple isMethod =>
    simp only [lookupLocal, NS.kind, NS.byName]
    exact congrArg Option.toList (simpleLookupDecl_anyOrder e isMethod byName nm si si' rt)
  | neither => rfl

theorem sizeOf_nested_lt (kind : NSKind) (own : List Decl)
    (byName : List (String × Decl)) (nns : List NS) :
    sizeOf nns < sizeOf (NS.mk kind own byName (some nns)) := by
  simp
  omega

theorem lookup_eq_none (anyOrder : Bool) (e : Option Decl) (kind : NSKind)
    (own : List Decl) (byName : List (String × Decl)) (name : UseId)
    (rt : ResolutionType) :
    lookup anyOrder e (NS.mk kind own byName none) name rt =
      lookupLocal anyOrder e (NS.mk kind own byName none) name rt := by
  cases hll : lookupLocal anyOrder e (NS.mk kind own byName none) name rt with
  | nil => simp only [lookup, hll]
  | cons x xs => simp only [lookup, hll]

theorem lookup_eq_some (anyOrder : Bool) (e : Option Decl) (kind : NSKind)
    (own : List Decl) (byName : List (String × Decl)) (nns : List NS)
    (name : UseId) (rt : ResolutionType) :
    lookup anyOrder e (NS.mk kind own byName (some nns)) name rt =
      (match lookupLocal anyOrder e (NS.mk kind own byName (some nns)) name rt with
       | [] => lookupNestedRev anyOrder e nns name rt
       | rv => rv) := by
  cases hll : lookupLocal anyOrder e (NS.mk kind own byName (some nns)) name rt with
  | nil => simp only [lookup, hll]
  | cons x xs => simp only [lookup, hll]

theorem lookupNestedRev_cons (anyOrder : Bool) (e : Option Decl) (nn : NS)
    (rest : List NS) (name : UseId) (rt : ResolutionType) :
    lookupNestedRev anyOrder e (nn :: rest) name rt =
      (match lookupNestedRev anyOrder e rest name rt with
       | [] => lookup anyOrder e nn name rt
       | rv => rv) := by
  cases hr : lookupNestedRev anyOrder e rest name rt with
  | nil => simp only [lookupNestedRev, hr]
  | cons x xs => simp only [lookupNestedRev, hr]

theorem sizeOf_head_lt (nn : NS) (rest : List NS) :
    sizeOf nn < sizeOf (nn :: rest) := by
  simp
  omega

theorem sizeOf_tail_lt (nn : NS) (rest : List NS) :
    sizeOf rest < sizeOf (nn :: rest) := by
  simp

theorem lookup_pos_sound_aux (k : Nat) :
    (∀ (e : Option Decl) (ns : NS), sizeOf ns ≤ k →
      ∀ (name : UseId) (rt : ResolutionType) (usePos : Nat) (d : Decl),
        name.srcPos = some usePos → d ∈ lookup false e ns name rt →
        d.isTypeVar = true ∨ d.isParserState = true ∨ nsNoMethod ns = false ∨
          d.srcPos ≤ usePos)
    ∧ (∀ (e : Option Decl) (nns : List NS), sizeOf nns ≤ k →
      ∀ (name : UseId) (rt : ResolutionType) (usePos : Nat) (d : Decl),
        name.srcPos = some usePos → d ∈ lookupNestedRev false e nns name rt →
        d.isTypeVar = true ∨ d.isParserState = true ∨ nsListNoMethod nns = false ∨
          d.srcPos ≤ usePos) := by
  induction k using Nat.strong_induction_on with
  | _ k ih =>
    constructor
    · intro e ns hk name rt usePos d hp hd
      obtain ⟨kind, own, byName, nested⟩ := ns
      cases nested with
      | none =>
        rw [lookup_eq_none] at hd
        exact lookupLocal_sound e _ name rt usePos d hp hd
      | some nns =>
        rw [lookup_eq_some] at hd
        split at hd
        · -- the direct part was empty: the nested namespaces answered
          have hlt : sizeOf nns < k :=
            Nat.lt_of_lt_of_le (sizeOf_nested_lt kind own byName nns) hk
          rcases (ih (sizeOf nns) hlt).2 e nns (Nat.le_refl _) name rt usePos d hp hd with
            h | h | h | h
          · exact Or.inl h
          · exact Or.inr (Or.inl h)
          · refine Or.inr (Or.inr (Or.inl ?_))
            simp [nsNoMethod, h]
          · exact Or.inr (Or.inr (Or.inr h))
        · -- the direct part answered
          exact lookupLocal_sound e _ name rt usePos d hp hd
    · intro e nns hk name rt usePos d hp hd
      cases nns with
      | nil => exact absurd hd (List.not_mem_nil d)
      | cons nn rest =>
        rw [lookupNestedRev_cons] at hd
        split at hd
        · -- the later namespaces found nothing: this one answered
          have hltn : sizeOf nn < k :=
            Nat.lt_of_lt_of_le (sizeOf_head_lt nn rest) hk
          rcases (ih (sizeOf nn) hltn).1 e nn (Nat.le_refl _) name rt usePos d hp hd with
            h | h | h | h
          · exact Or.inl h
          · exact Or.inr (Or.inl h)
          · refine Or.inr (Or.inr (Or.inl ?_))
            simp [nsListNoMethod, h]
          · exact Or.inr (Or.inr (Or.inr h))
        · have hltr : sizeOf rest < k :=
            Nat.lt_of_lt_of_le (sizeOf_tail_lt nn rest) hk
          rcases (ih (sizeOf rest) hltr).2 e rest (Nat.le_refl _) name rt usePos d hp hd with
            h | h | h | h
          · exact Or.inl h
          · exact Or.inr (Or.inl h)
          · refine Or.inr (Or.inr (Or.inl ?_))
            simp [nsListNoMethod, h]
          · exact Or.inr (Or.inr (Or.inr h))

theorem lookup_pos_sound (e : Option Decl) (ns : NS) (name : UseId)
    (rt : ResolutionType) (usePos : Nat) (d : Decl)
    (hp : name.srcPos = some usePos)
    (hd : d ∈ lookup false e ns name rt) :
    d.isTypeVar = true ∨ d.isParserState = true ∨ nsNoMethod ns = false ∨
      d.srcPos ≤ usePos :=
  (lookup_pos_sound_aux (sizeOf ns)).1 e ns (Nat.le_refl _) name rt usePos d hp hd

theorem lookup_anyOrder_aux (k : Nat) :
    (∀ (e : Option Decl) (ns : NS), sizeOf ns ≤ k →
      ∀ (nm : String) (si si' : Option Nat) (rt : ResolutionType),
        lookup true e ns ⟨nm, si⟩ rt = lookup true e ns ⟨nm, si'⟩ rt)
    ∧ (∀ (e : Option Decl) (nns : List NS), sizeOf nns ≤ k →
      ∀ (nm : String) (si si' : Option Nat) (rt : ResolutionType),
        lookupNestedRev true e nns ⟨nm, si⟩ rt =
          lookupNestedRev true e nns ⟨nm, si'⟩ rt) := by
  induction k using Nat.strong_induction_on with
  | _ k ih =>
    constructor
    · intro e ns hk nm si si' rt
      obtain ⟨kind, own, byName, nested⟩ := ns
      cases nested with
      | none =>
        rw [lookup_eq_none, lookup_eq_none]
        exact lookupLocal_anyOrder e _ nm si si' rt
      | some nns =>
        rw [lookup_eq_some, lookup_eq_some,
          lookupLocal_anyOrder e (NS.mk kind own byName (some nns)) nm si si' rt]
        have hlt : sizeOf nns < k :=
          Nat.lt_of_lt_of_le (sizeOf_nested_lt kind own byName nns) hk
        rw [(ih (sizeOf nns) hlt).2 e nns (Nat.le_refl _) nm si si' rt]
    · intro e nns hk nm si si' rt
      cases nns with
      | nil => rfl
      | cons nn rest =>
        rw [lookupNestedRev_cons, lookupNestedRev_cons]
        have hltr : sizeOf rest < k :=
          Nat.lt_of_lt_of_le (sizeOf_tail_lt nn rest) hk
        rw [(ih (sizeOf rest) hltr).2 e rest (Nat.le_refl _) nm si si' rt]
        have hltn : sizeOf nn < k :=
          Nat.lt_of_lt_of_le (sizeOf_head_lt nn rest) hk
        rw [(ih (sizeOf nn) hltn).1 e nn (Nat.le_refl _) nm si si' rt]

theorem lookup_anyOrder_posIndep (e : Option Decl) (ns : NS) (nm : String)
    (si si' : Option Nat) (rt : ResolutionType) :
    lookup true e ns ⟨nm, si⟩ rt = lookup true e ns ⟨nm, si'⟩ rt :=
  (lookup_anyOrder_aux (sizeOf ns)).1 e ns (Nat.le_refl _) nm si si' rt

/-- C4: in non-v1 mode (anyOrder false), a lookup of a name with a valid
source position only returns declarations whose source location is at or
before the use site, except type variables and parser states, and except
lookups that pass through an IR::Method namespace, whose parameters may
be referenced in annotations preceding the method; with anyOrder true
(v1 mode) the position filter is suppressed entirely: the result does
not depend on the source position of the use site at all. -/
theorem lookup_order_filter (e : Option Decl) (ns : NS) (name : UseId)
    (rt : ResolutionType) (usePos : Nat) (d : Decl) :
    (name.srcPos = some usePos → d ∈ lookup false e ns name rt →
      d.isTypeVar = true ∨ d.isParserState = true ∨ nsNoMethod ns = false ∨
        d.srcPos ≤ usePos)
    ∧ (∀ si si' : Option Nat,
        lookup true e ns ⟨name.uname, si⟩ rt = lookup true e ns ⟨name.uname, si'⟩ rt) :=
  ⟨fun hp hd => lookup_pos_sound e ns name rt usePos d hp hd,
   fun si si' => lookup_anyOrder_posIndep e ns name.uname si si' rt⟩

/-- Witness for C4: a declaration of x at position 2 is returned for a
use of x at position 5 and indeed stands at or before it. -/
theorem lookup_order_filter_witness :
    (⟨"x", some 5⟩ : UseId).srcPos = some 5
    ∧ (⟨0, "x", 2, false, false, false, false, []⟩ : Decl) ∈
        lookup false none
          (NS.mk NSKind.general [⟨0, "x", 2, false, false, false, false, []⟩] [] none)
          ⟨"x", some 5⟩ ResolutionType.any
    ∧ ((⟨0, "x", 2, false, false, false, false, []⟩ : Decl).isTypeVar = true
      ∨ (⟨0, "x", 2, false, false, false, false, []⟩ : Decl).isParserState = true
      ∨ nsNoMethod (NS.mk NSKind.general
          [⟨0, "x", 2, false, false, false, false, []⟩] [] none) = false
      ∨ (⟨0, "x", 2, false, false, false, false, []⟩ : Decl).srcPos ≤ 5) :=
  ⟨rfl, by decide,
   (lookup_order_filter none
     (NS.mk NSKind.general [⟨0, "x", 2, false, false, false, false, []⟩] [] none)
     ⟨"x", some 5⟩ ResolutionType.any 5
     ⟨0, "x", 2, false, false, false, false, []⟩).1 rfl (by decide)⟩

/-- C5: resolveUnique collects candidates via lookup in the given
namespace, or via resolve otherwise; when more than one candidate
remains and methodArguments finds an argument vector it keeps only the
candidates that are not Functional or whose callMatches holds; it then
returns the single candidate when exactly one remains, emits the
declaration-not-found diagnostic and returns null when none remain, and
emits the multiple-matching-declarations diagnostic listing every
remaining candidate and returns null when more than one remain. -/
theorem resolveUnique_outcomes (rc : RCtx) (name : UseId) (rt : ResolutionType)
    (ns : Option NS) (cands : List Decl)
    (hc : cands = (match ns with
      | some n => lookup rc.anyOrder rc.enclDecl n name rt
      | none => resolveDecls rc name rt)) :
    resolveUnique rc name rt ns = uniqueOutcome name (overloadFilter rc name cands)
    ∧ (∀ (ds : List Decl) (args : Nat), 1 < ds.length →
        methodArguments rc.maFrames name.uname = some args →
        overloadFilter rc name ds =
          ds.filter fun d => if d.isFunctional then callMatches d args else true)
    ∧ (∀ ds : List Decl, methodArguments rc.maFrames name.uname = none →
        overloadFilter rc name ds = ds)
    ∧ (∀ ds : List Decl, ¬ 1 < ds.length → overloadFilter rc name ds = ds)
    ∧ uniqueOutcome name [] = (none, [Diag.notFound name.uname])
    ∧ (∀ d : Decl, uniqueOutcome name [d] = (some d, []))
    ∧ (∀ (x y : Decl) (rest : List Decl), uniqueOutcome name (x :: y :: rest) =
        (none, Diag.duplicate name.uname :: (x :: y :: rest).map Diag.candidate)) := by
  subst hc
  refine ⟨rfl, ?_, ?_, ?_, rfl, fun d => rfl, fun x y rest => rfl⟩
  · intro ds args hlen hargs
    simp only [overloadFilter, hargs, if_pos hlen]
  · intro ds hargs
    simp only [overloadFilter, hargs]
    split <;> rfl
  · intro ds hlen
    simp only [overloadFilter, if_neg hlen]

/-- Witness for C5: two Functional declarations named f with arities 0
and 1; a call f with one argument filters to the arity-1 overload, which
resolveUnique returns with no diagnostic. -/
theorem resolveUnique_outcomes_witness :
    ([] : List Decl) = [] ∧
    resolveUnique ⟨false, none, [], none, [MAFrame.methodCall (MACallee.path "f") 1]⟩
      ⟨"f", none⟩ ResolutionType.any
      (some (NS.mk NSKind.general [⟨1, "f", 0, false, false, false, true, [0]⟩,
        ⟨2, "f", 0, false, false, false, true, [1]⟩] [] none)) =
      uniqueOutcome ⟨"f", none⟩
        (overloadFilter ⟨false, none, [], none, [MAFrame.methodCall (MACallee.path "f") 1]⟩
          ⟨"f", none⟩
          [⟨1, "f", 0, false, false, false, true, [0]⟩,
           ⟨2, "f", 0, false, false, false, true, [1]⟩]) ∧
    uniqueOutcome ⟨"f", none⟩
        (overloadFilter ⟨false, none, [], none, [MAFrame.methodCall (MACallee.path "f") 1]⟩
          ⟨"f", none⟩
          [⟨1, "f", 0, false, false, false, true, [0]⟩,
           ⟨2, "f", 0, false, false, false, true, [1]⟩]) =
      (some ⟨2, "f", 0, false, false, false, true, [1]⟩, []) :=
  ⟨rfl,
   (resolveUnique_outcomes ⟨false, none, [], none,
      [MAFrame.methodCall (MACallee.path "f") 1]⟩ ⟨"f", none⟩ ResolutionType.any
      (some (NS.mk NSKind.general [⟨1, "f", 0, false, false, false, true, [0]⟩,
        ⟨2, "f", 0, false, false, false, true, [1]⟩] [] none))
      [⟨1, "f", 0, false, false, false, true, [0]⟩,
       ⟨2, "f", 0, false, false, false, true, [1]⟩] (by decide)).1,
   by decide⟩

/-- C9: a candidate that does not implement IFunctional is never removed
by the argument-based overload filter; when at least two candidates
survive, resolveUnique reports the multiple-matching-declarations
diagnostic listing the non-Functional candidate rather than silently
dropping it. -/
theorem overloadFilter_keeps_nonfunctional (rc : RCtx) (name : UseId)
    (rt : ResolutionType) (ns : Option NS) (cands : List Decl) (args : Nat) (d : Decl)
    (hc : cands = (match ns with
      | some n => lookup rc.anyOrder rc.enclDecl n name rt
      | none => resolveDecls rc name rt))
    (hlen : 1 < cands.length)
    (hargs : methodArguments rc.maFrames name.uname = some args)
    (hd : d ∈ cands) (hnf : d.isFunctional = false) :
    d ∈ overloadFilter rc name cands
    ∧ (∀ (x y : Decl) (rest : List Decl), overloadFilter rc name cands = x :: y :: rest →
        (resolveUnique rc name rt ns).1 = none
        ∧ Diag.duplicate name.uname ∈ (resolveUnique rc name rt ns).2
        ∧ Diag.candidate d ∈ (resolveUnique rc name rt ns).2) := by
  have hof : overloadFilter rc name cands =
      cands.filter fun d' => if d'.isFunctional then callMatches d' args else true := by
    simp only [overloadFilter, hargs, if_pos hlen]
  have hmem : d ∈ overloadFilter rc name cands := by
    rw [hof]
    exact List.mem_filter.mpr ⟨hd, by simp [hnf]⟩
  refine ⟨hmem, fun x y rest hxy => ?_⟩
  have hru : resolveUnique rc name rt ns = uniqueOutcome name (x :: y :: rest) := by
    rw [resolveUnique.eq_def, ← hc, hxy]
  rw [hru]
  refine ⟨rfl, List.mem_cons_self _ _, ?_⟩
  have hmem2 : d ∈ x :: y :: rest := hxy ▸ hmem
  exact List.mem_cons_of_mem _ (List.mem_map_of_mem Diag.candidate hmem2)

/-- Witness for C9: a non-Functional declaration g next to a matching
overload survives the filter and appears as a listed candidate of the
duplicate diagnostic. -/
theorem overloadFilter_keeps_nonfunctional_witness :
    (⟨1, "g", 0, false, false, false, false, []⟩ : Decl) ∈
      overloadFilter ⟨false, none, [], none, [MAFrame.methodCall (MACallee.path "g") 1]⟩
        ⟨"g", none⟩
        [⟨1, "g", 0, false, false, false, false, []⟩,
         ⟨2, "g", 0, false, false, false, true, [1]⟩]
    ∧ Diag.candidate ⟨1, "g", 0, false, false, false, false, []⟩ ∈
        (resolveUnique ⟨false, none, [], none, [MAFrame.methodCall (MACallee.path "g") 1]⟩
          ⟨"g", none⟩ ResolutionType.any
          (some (NS.mk NSKind.general [⟨1, "g", 0, false, false, false, false, []⟩,
            ⟨2, "g", 0, false, false, false, true, [1]⟩] [] none))).2 :=
  ⟨(overloadFilter_keeps_nonfunctional
      ⟨false, none, [], none, [MAFrame.methodCall (MACallee.path "g") 1]⟩ ⟨"g", none⟩
      ResolutionType.any
      (some (NS.mk NSKind.general [⟨1, "g", 0, false, false, false, false, []⟩,
        ⟨2, "g", 0, false, false, false, true, [1]⟩] [] none))
      [⟨1, "g", 0, false, false, false, false, []⟩,
       ⟨2, "g", 0, false, false, false, true, [1]⟩] 1
      ⟨1, "g", 0, false, false, false, false, []⟩
      (by decide) (by decide) rfl (by decide) rfl).1,
   ((overloadFilter_keeps_nonfunctional
      ⟨false, none, [], none, [MAFrame.methodCall (MACallee.path "g") 1]⟩ ⟨"g", none⟩
      ResolutionType.any
      (some (NS.mk NSKind.general [⟨1, "g", 0, false, false, false, false, []⟩,
        ⟨2, "g", 0, false, false, false, true, [1]⟩] [] none))
      [⟨1, "g", 0, false, false, false, false, []⟩,
       ⟨2, "g", 0, false, false, false, true, [1]⟩] 1
      ⟨1, "g", 0, false, false, false, false, []⟩
      (by decide) (by decide) rfl (by decide) rfl).2
      ⟨1, "g", 0, false, false, false, false, []⟩
      ⟨2, "g", 0, false, false, false, true, [1]⟩ [] (by decide)).2.2⟩

/-- C10 counterexample: a ParserState declaration s (node 7, declared at
position 9) looked up from inside itself (the nearest enclosing
declaration is node 7) at use position 4 with kind Any is returned, not
rejected: parser states are exempted before the self-check, so a state
resolves from its own body (recursive transitions). A Type_Var behaves
the same in the general-namespace path. The claim that a candidate is
always rejected when the use site lies inside that same declaration is
false at these inputs. -/
theorem lookup_self_reference_cex :
    lookup false (some ⟨7, "s", 9, false, false, true, false, []⟩)
      (NS.mk (NSKind.simple false) [⟨7, "s", 9, false, false, true, false, []⟩]
        [("s", ⟨7, "s", 9, false, false, true, false, []⟩)] none)
      ⟨"s", some 4⟩ ResolutionType.any =
      [⟨7, "s", 9, false, false, true, false, []⟩]
    ∧ lookup false (some ⟨8, "T", 9, true, true, false, false, []⟩)
        (NS.mk NSKind.general [⟨8, "T", 9, true, true, false, false, []⟩] [] none)
        ⟨"T", some 4⟩ ResolutionType.any =
      [⟨8, "T", 9, true, true, false, false, []⟩] :=
  ⟨rfl, rfl⟩

theorem nsNoMethod_eq (kind : NSKind) (own : List Decl)
    (byName : List (String × Decl)) (nested : Option (List NS)) :
    nsNoMethod (NS.mk kind own byName nested) =
      ((match kind with | NSKind.simple m => !m | _ => true) &&
       (match nested with | some nns => nsListNoMethod nns | none => true)) := by
  cases kind <;> cases nested <;> rfl

theorem nsNoMethod_simple_false (isMethod : Bool) (own : List Decl)
    (byName : List (String × Decl)) (nested : Option (List NS))
    (h : nsNoMethod (NS.mk (NSKind.simple isMethod) own byName nested) = true) :
    isMethod = false := by
  rw [nsNoMethod_eq] at h
  rcases Bool.and_eq_true _ _ |>.mp h with ⟨h1, _⟩
  simpa using h1

theorem nsNoMethod_nested (kind : NSKind) (own : List Decl)
    (byName : List (String × Decl)) (nns : List NS)
    (h : nsNoMethod (NS.mk kind own byName (some nns)) = true) :
    nsListNoMethod nns = true := by
  rw [nsNoMethod_eq] at h
  exact (Bool.and_eq_true _ _ |>.mp h).2

theorem nsListNoMethod_cons (nn : NS) (rest : List NS)
    (h : nsListNoMethod (nn :: rest) = true) :
    nsNoMethod nn = true ∧ nsListNoMethod rest = true := by
  have h2 : (nsNoMethod nn && nsListNoMethod rest) = true := h
  exact Bool.and_eq_true _ _ |>.mp h2

theorem lookupLocal_self_rejected (eD : Decl) (ns : NS) (name : UseId)
    (usePos : Nat) (d : Decl)
    (hp : name.srcPos = some usePos)
    (htv : d.isTypeVar = false) (hps : d.isParserState = false)
    (hnm : nsNoMethod ns = true) (hid : eD.declId = d.declId) :
    d ∉ lookupLocal false (some eD) ns name ResolutionType.any := by
  obtain ⟨kind, own, byName, nested⟩ := ns
  intro hd
  cases kind with
  | general =>
    simp only [lookupLocal, NS.kind, hp, Bool.not_false, eq_self_iff_true, if_true] at hd
    have hpred := (List.mem_filter.mp hd).2
    have hfalse : locationFilterGeneral (some eD) ResolutionType.any usePos d = false := by
      simp [locationFilterGeneral, htv, hps, hid]
    rw [hfalse] at hpred
    exact Bool.noConfusion hpred
  | simple isMethod =>
    have hm : isMethod = false := nsNoMethod_simple_false isMethod own byName nested hnm
    subst hm
    simp only [lookupLocal, NS.kind, NS.byName] at hd
    rw [Option.mem_toList] at hd
    simp only [simpleLookupDecl, hp] at hd
    split at hd
    case h_2 => exact Option.noConfusion hd
    case h_1 d0 heq0 =>
      split at hd
      case isTrue hg =>
        obtain ⟨hb, hdd⟩ := optIf_eq_some _ _ _ hd
        subst hdd
        rw [hid] at hb
        simp at hb
      case isFalse hg =>
        have hdd : d = d0 := (Option.some.inj hd).symm
        subst hdd
        have hg' : (!false && !false && !d.isTypeVar && !d.isParserState) = false :=
          Bool.not_eq_true _ |>.mp hg
        rcases Bool.and_eq_false_iff.mp hg' with h1 | h1
        · rcases Bool.and_eq_false_iff.mp h1 with h2 | h2
          · rcases Bool.and_eq_false_iff.mp h2 with h3 | h3
            · exact Bool.noConfusion h3
            · exact Bool.noConfusion h3
          · rw [htv] at h2
            simp at h2
        · rw [hps] at h1
          simp at h1
  | neither => exact absurd hd (List.not_mem_nil d)

theorem lookup_self_rejected_aux (k : Nat) :
    (∀ (eD : Decl) (ns : NS), sizeOf ns ≤ k →
      ∀ (name : UseId) (usePos : Nat) (d : Decl),
        name.srcPos = some usePos → d.isTypeVar = false → d.isParserState = false →
        nsNoMethod ns = true → eD.declId = d.declId →
        d ∉ lookup false (some eD) ns name ResolutionType.any)
    ∧ (∀ (eD : Decl) (nns : List NS), sizeOf nns ≤ k →
      ∀ (name : UseId) (usePos : Nat) (d : Decl),
        name.srcPos = some usePos → d.isTypeVar = false → d.isParserState = false →
        nsListNoMethod nns = true → eD.declId = d.declId →
        d ∉ lookupNestedRev false (some eD) nns name ResolutionType.any) := by
  induction k using Nat.strong_induction_on with
  | _ k ih =>
    constructor
    · intro eD ns hk name usePos d hp htv hps hnm hid hd
      obtain ⟨kind, own, byName, nested⟩ := ns
      cases nested with
      | none =>
        rw [lookup_eq_none] at hd
        exact lookupLocal_self_rejected eD _ name usePos d hp htv hps hnm hid hd
      | some nns =>
        rw [lookup_eq_some] at hd
        split at hd
        · have hlt : sizeOf nns < k :=
            Nat.lt_of_lt_of_le (sizeOf_nested_lt kind own byName nns) hk
          exact (ih (sizeOf nns) hlt).2 eD nns (Nat.le_refl _) name usePos d hp htv hps
            (nsNoMethod_nested kind own byName nns hnm) hid hd
        · exact lookupLocal_self_rejected eD _ name usePos d hp htv hps hnm hid hd
    · intro eD nns hk name usePos d hp htv hps hnm hid hd
      cases nns with
      | nil => exact absurd hd (List.not_mem_nil d)
      | cons nn rest =>
        obtain ⟨hnm1, hnm2⟩ := nsListNoMethod_cons nn rest hnm
        rw [lookupNestedRev_cons] at hd
        split at hd
        · have hltn : sizeOf nn < k :=
            Nat.lt_of_lt_of_le (sizeOf_head_lt nn rest) hk
          exact (ih (sizeOf nn) hltn).1 eD nn (Nat.le_refl _) name usePos d hp htv hps
            hnm1 hid hd
        · have hltr : sizeOf rest < k :=
            Nat.lt_of_lt_of_le (sizeOf_tail_lt nn rest) hk
          exact (ih (sizeOf rest) hltr).2 eD rest (Nat.le_refl _) name usePos d hp htv hps
            hnm2 hid hd

/-- C10 amended: with kind Any in non-v1 mode and a valid use position,
a candidate declaration whose node is the nearest enclosing
IR::Declaration of the use site is rejected by the position filter —
provided the candidate is neither a Type_Var nor a ParserState (both are
exempted before the self-check, which lets recursive parser states
resolve) and the lookup does not pass through an IR::Method namespace
(where the filter is skipped). Under those provisos an identifier in a
declaration's own initializer never resolves to the declaration being
initialized, in both the general-namespace and simple-namespace lookup
paths. -/
theorem lookup_self_reference_rejected (eD : Decl) (ns : NS) (name : UseId)
    (usePos : Nat) (d : Decl)
    (hp : name.srcPos = some usePos)
    (htv : d.isTypeVar = false) (hps : d.isParserState = false)
    (hnm : nsNoMethod ns = true) (hid : eD.declId = d.declId) :
    d ∉ lookup false (some eD) ns name ResolutionType.any :=
  (lookup_self_rejected_aux (sizeOf ns)).1 eD ns (Nat.le_refl _) name usePos d
    hp htv hps hnm hid

/-- Witness for C10: a plain declaration v at position 2, whose own
initializer at position 5 uses the name v, does not resolve to itself
even though it stands before the use site. -/
theorem lookup_self_reference_rejected_witness :
    (⟨"v", some 5⟩ : UseId).srcPos = some 5
    ∧ nsNoMethod (NS.mk (NSKind.simple false) [⟨3, "v", 2, false, false, false, false, []⟩]
        [("v", ⟨3, "v", 2, false, false, false, false, []⟩)] none) = true
    ∧ (⟨3, "v", 2, false, false, false, false, []⟩ : Decl) ∉
        lookup false (some ⟨3, "v", 2, false, false, false, false, []⟩)
          (NS.mk (NSKind.simple false) [⟨3, "v", 2, false, false, false, false, []⟩]
            [("v", ⟨3, "v", 2, false, false, false, false, []⟩)] none)
          ⟨"v", some 5⟩ ResolutionType.any :=
  ⟨rfl, by decide,
   lookup_self_reference_rejected ⟨3, "v", 2, false, false, false, false, []⟩
     (NS.mk (NSKind.simple false) [⟨3, "v", 2, false, false, false, false, []⟩]
       [("v", ⟨3, "v", 2, false, false, false, false, []⟩)] none)
     ⟨"v", some 5⟩ 5 ⟨3, "v", 2, false, false, false, false, []⟩
     rfl rfl rfl (by decide) rfl⟩

/-- Witness for C2: a tracked original with visitOnce set and a
structurally different final node; finish succeeds. -/
theorem changeTracker_finish_characterization_witness :
    alFind (⟨false, [(0, ⟨true, true, some (IRTree.node 0 0 [])⟩)]⟩ :
        ChangeTracker).visited (IRTree.node 0 0 []).nid =
      some ⟨true, true, some (IRTree.node 0 0 [])⟩
    ∧ (ctFinish ⟨false, [(0, ⟨true, true, some (IRTree.node 0 0 [])⟩)]⟩
        (IRTree.node 0 0 []) (some (IRTree.node 1 1 []))).isSome = true :=
  ⟨rfl,
   (changeTracker_finish_characterization
     ⟨false, [(0, ⟨true, true, some (IRTree.node 0 0 [])⟩)]⟩
     (IRTree.node 0 0 []) (some (IRTree.node 1 1 []))
     ⟨true, true, some (IRTree.node 0 0 [])⟩ rfl).1⟩
